import Mathlib

/-!
Verification of the live recitation-scoring backend.

The development shallowly embeds the core of the repository:
the Arabic text normalizer and scorer (src/services/text_matcher.py),
the voice-activity segmenter (src/services/vad_processor.py),
the per-connection recitation session and its statistics (src/main.py),
and the word-store lookup (src/services/database.py).

Python strings are modelled as lists of characters, bytes objects as lists
of naturals, floats as exact rationals, and raised exceptions as Except
values.  External collaborators (pyarabic, difflib, webrtcvad, pydub, the
Whisper API and the SQL connection) are modelled at their call boundary:
pure library helpers are given faithful definitions, effectful ones are
passed in as explicit function parameters.
-/

namespace Recitation

/-- Python strings are modelled as lists of Unicode characters. -/
abbrev PyStr := List Char

/-- Python bytes objects are modelled as lists of naturals. -/
abbrev PyBytes := List Nat

/-! ### Text normalizer (src/services/text_matcher.py, ArabicTextMatcher.normalize) -/

/-- Modelled from the spec: the eight tashkeel marks removed by the external
library call pyarabic.araby.strip_tashkeel (fathatan, dammatan, kasratan,
fatha, damma, kasra, shadda, sukun). -/
def tashkeelChars : List Char :=
  ['ً', 'ٌ', 'ٍ', 'َ', 'ُ', 'ِ', 'ّ', 'ْ']

/-- Modelled from the spec: pyarabic.araby.strip_tashkeel removes every
tashkeel mark from the text. -/
def strip_tashkeel (t : PyStr) : PyStr :=
  t.filter (fun c => !tashkeelChars.contains c)

/-- The Arabic tatweel (elongation) character. -/
def tatweelChar : Char := 'ـ'

/-- Modelled from the spec: pyarabic.araby.strip_tatweel removes every
tatweel character from the text. -/
def strip_tatweel (t : PyStr) : PyStr :=
  t.filter (fun c => c != tatweelChar)

/-- Python str.replace for a single-character pattern: every occurrence of
a is replaced by b. -/
def pyReplace (a b : Char) (t : PyStr) : PyStr :=
  t.map (fun c => if c = a then b else c)

/-- The characters Python str.split() and str.strip() treat as whitespace. -/
def isPySpace (c : Char) : Bool :=
  (9 ≤ c.toNat && c.toNat ≤ 13) || (28 ≤ c.toNat && c.toNat ≤ 31) ||
  c.toNat == 32 || c.toNat == 0x85 || c.toNat == 0xA0 || c.toNat == 0x1680 ||
  (0x2000 ≤ c.toNat && c.toNat ≤ 0x200A) || c.toNat == 0x2028 ||
  c.toNat == 0x2029 || c.toNat == 0x202F || c.toNat == 0x205F ||
  c.toNat == 0x3000

/-- One character of Python str.split(), processed right to left.  The state
is the word currently being assembled together with the completed words. -/
def splitStep (c : Char) (st : PyStr × List PyStr) : PyStr × List PyStr :=
  if isPySpace c then ([], if st.1.isEmpty then st.2 else st.1 :: st.2)
  else (c :: st.1, st.2)

/-- Close the split state: flush the pending word, if any. -/
def splitFlush (st : PyStr × List PyStr) : List PyStr :=
  if st.1.isEmpty then st.2 else st.1 :: st.2

/-- Python str.split() with no separator: the maximal runs of
non-whitespace characters, in order; empty runs are dropped. -/
def pySplit (l : PyStr) : List PyStr :=
  splitFlush (l.foldr splitStep ([], []))

/-- Python str.strip(): remove leading and trailing whitespace. -/
def pyStrip (t : PyStr) : PyStr :=
  ((t.dropWhile isPySpace).reverse.dropWhile isPySpace).reverse

/-- The mark-stripping and letter-canonicalization steps of
ArabicTextMatcher.normalize, in source order: strip tashkeel, strip tatweel,
map the three hamza-bearing alef variants and alef wasla to bare alef, alef
maksura to yaa, and taa marbuta to haa. -/
def replaceStage (t : PyStr) : PyStr :=
  pyReplace 'ة' 'ه' (pyReplace 'ى' 'ي' (pyReplace 'ٱ' 'ا' (pyReplace 'آ' 'ا'
    (pyReplace 'إ' 'ا' (pyReplace 'أ' 'ا' (strip_tatweel (strip_tashkeel t)))))))

/-- The whitespace clean-up of ArabicTextMatcher.normalize: the Python
idiom of joining str.split() with single spaces, followed by str.strip(). -/
def collapseWs (t : PyStr) : PyStr :=
  pyStrip (List.intercalate [' '] (pySplit t))

/-- ArabicTextMatcher.normalize: strip tashkeel and tatweel, canonicalize the
hamza-bearing alef variants to bare alef, alef maksura to yaa, taa marbuta to
haa, then collapse and trim whitespace. -/
def normalize (text : PyStr) : PyStr :=
  collapseWs (replaceStage text)

/-- A character the normalizer can no longer act on: not a tashkeel mark,
not tatweel, and none of the six letters the replace chain rewrites. -/
def goodChar (c : Char) : Prop :=
  tashkeelChars.contains c = false ∧ c ≠ tatweelChar ∧
    c ∉ (['أ', 'إ', 'آ', 'ٱ', 'ى', 'ة'] : List Char)

/-! ### Similarity scorer (src/services/text_matcher.py, compare_words) -/

/-- Fuelled recursion computing the longest-common-subsequence length; the
fuel only serves to make the recursion structural and is always supplied
large enough. -/
def lcsAux : Nat → PyStr → PyStr → Nat
  | 0, _, _ => 0
  | _ + 1, [], _ => 0
  | _ + 1, _ :: _, [] => 0
  | fuel + 1, x :: xs, y :: ys =>
    if x = y then lcsAux fuel xs ys + 1
    else max (lcsAux fuel (x :: xs) ys) (lcsAux fuel xs (y :: ys))

/-- Modelled from the spec: the matched-character-pair count underlying the
external difflib.SequenceMatcher, longest-common-subsequence style. -/
def lcsLength (a b : PyStr) : Nat :=
  lcsAux (a.length + b.length) a b

/-- Modelled from the spec: difflib.SequenceMatcher(None, a, b).ratio(), the
matched-character pairs times 2 over the total length of both strings; the
library returns 1.0 when both strings are empty. -/
def seqRatio (a b : PyStr) : ℚ :=
  if a.length + b.length = 0 then 1
  else 2 * lcsLength a b / (a.length + b.length)

/-- Python round(x, 2): round to the nearest number of hundredths.  Python
breaks exact ties to even; the program never compares at an exact tie, so
the tie direction is immaterial here. -/
def round2 (q : ℚ) : ℚ := (round (q * 100) : ℤ) / 100

/-- The dictionary returned by ArabicTextMatcher.compare_words. -/
structure CompareResult where
  expected : PyStr
  user_said : PyStr
  expected_normalized : PyStr
  user_normalized : PyStr
  similarity : ℚ
  status : PyStr
  color : PyStr
  message : PyStr
deriving DecidableEq

/-- ArabicTextMatcher.compare_words: normalize both sides, score them with
the sequence-matcher ratio scaled to 0..100, and classify: identical
normalized forms are correct/green, a score of at least 85 is
similar/yellow, at least 70 is similar/orange, anything else wrong/red.
The returned similarity is rounded to two decimals; the thresholds are
compared against the unrounded score, exactly as in the source. -/
def compare_words (expected user_said : PyStr) : CompareResult :=
  let expected_clean := normalize expected
  let user_clean := normalize user_said
  let similarity := seqRatio expected_clean user_clean * 100
  if expected_clean = user_clean then
    ⟨expected, user_said, expected_clean, user_clean, round2 similarity,
      "correct".toList, "green".toList, "ممتاز! نطق صحيح".toList⟩
  else if 85 ≤ similarity then
    ⟨expected, user_said, expected_clean, user_clean, round2 similarity,
      "similar".toList, "yellow".toList, "قريب جداً، الصواب: ".toList ++ expected⟩
  else if 70 ≤ similarity then
    ⟨expected, user_said, expected_clean, user_clean, round2 similarity,
      "similar".toList, "orange".toList, "خطأ بسيط، الصواب: ".toList ++ expected⟩
  else
    ⟨expected, user_said, expected_clean, user_clean, round2 similarity,
      "wrong".toList, "red".toList, "خطأ، الصواب: ".toList ++ expected⟩

/-! ### Voice activity segmenter (src/services/vad_processor.py) -/

/-- VoiceActivityDetector.__init__: bytes per frame for the default 16 kHz
sample rate and 30 ms frame duration, int(16000 * 30 / 1000) * 2. -/
def bytes_per_frame : Nat := 16000 * 30 / 1000 * 2

/-- VoiceActivityDetector.__init__: the ring buffer holds ten frames. -/
def ring_buffer_size : Nat := 10

/-- The mutable state of the real (webrtcvad-backed) VoiceActivityDetector:
the triggered flag, the bounded ring buffer of (frame, is_speech) pairs, the
accumulated voiced frames, and the lazily created debug frame counter. -/
structure VADState where
  triggered : Bool
  ring : List (PyBytes × Bool)
  voiced_frames : List PyBytes
  frame_count : Nat
deriving DecidableEq

/-- The segmenter state right after VoiceActivityDetector.__init__. -/
def initVAD : VADState :=
  { triggered := false, ring := [], voiced_frames := [], frame_count := 0 }

/-- Appending to a collections.deque with maxlen ten: the oldest entry is
evicted once the buffer overflows. -/
def ringAppend (r : List (PyBytes × Bool)) (x : PyBytes × Bool) :
    List (PyBytes × Bool) :=
  let r2 := r ++ [x]
  r2.drop (r2.length - ring_buffer_size)

/-- The number of buffered frames classified as speech. -/
def numVoiced (r : List (PyBytes × Bool)) : Nat :=
  (r.filter (fun p => p.2)).length

/-- The number of buffered frames classified as silence. -/
def numUnvoiced (r : List (PyBytes × Bool)) : Nat :=
  (r.filter (fun p => !p.2)).length

/-- VoiceActivityDetector.process_frame of the real detector.  The speech
classification produced by the external webrtcvad.Vad.is_speech call is an
explicit input.  A frame of the wrong byte length is rejected without any
state change.  In the untriggered state the frame joins the ring buffer and
capturing starts once the voiced count exceeds half the window, moving the
buffered frames into the accumulator.  In the triggered state the frame
joins both accumulator and ring buffer, and once the unvoiced count exceeds
0.8 of the window the concatenated accumulator is emitted and all buffers
are cleared. -/
def vadProcessFrame (s : VADState) (frame : PyBytes) (is_speech : Bool) :
    VADState × Option PyBytes :=
  if frame.length ≠ bytes_per_frame then (s, none)
  else
    let s1 : VADState := { s with frame_count := s.frame_count + 1 }
    if !s1.triggered then
      let ring := ringAppend s1.ring (frame, is_speech)
      if (0.5 : ℚ) * ring_buffer_size < numVoiced ring then
        ({ s1 with
            triggered := true
            voiced_frames := s1.voiced_frames ++ ring.map Prod.fst
            ring := [] }, none)
      else ({ s1 with ring := ring }, none)
    else
      let voiced := s1.voiced_frames ++ [frame]
      let ring := ringAppend s1.ring (frame, is_speech)
      if (0.8 : ℚ) * ring_buffer_size < numUnvoiced ring then
        ({ s1 with triggered := false, voiced_frames := [], ring := [] },
          some voiced.flatten)
      else ({ s1 with voiced_frames := voiced, ring := ring }, none)

/-- Feed a scripted list of (frame, classification) pairs through the
segmenter, collecting every emitted segment in order. -/
def runVAD (s : VADState) : List (PyBytes × Bool) → VADState × List PyBytes
  | [] => (s, [])
  | (f, c) :: rest =>
    let (s', out) := vadProcessFrame s f c
    let (s'', segs) := runVAD s' rest
    (s'', out.toList ++ segs)

/-- The state of the fallback (dummy) VoiceActivityDetector used when
webrtcvad is unavailable: the collected frames and the frame counter. -/
structure DummyVADState where
  voiced_frames : List PyBytes
  frame_count : Nat
deriving DecidableEq

/-- The dummy detector state right after its __init__. -/
def initDummyVAD : DummyVADState := { voiced_frames := [], frame_count := 0 }

/-- The dummy detector flushes after seventeen collected frames. -/
def frames_threshold : Nat := 17

/-- Process_frame of the dummy detector: reject wrong-length frames without
any state change, otherwise collect the frame and flush the concatenation
once the threshold count is reached. -/
def dummyProcessFrame (s : DummyVADState) (frame : PyBytes) :
    DummyVADState × Option PyBytes :=
  if frame.length ≠ bytes_per_frame then (s, none)
  else
    let s1 : DummyVADState :=
      { voiced_frames := s.voiced_frames ++ [frame]
        frame_count := s.frame_count + 1 }
    if frames_threshold ≤ s1.voiced_frames.length then
      ({ s1 with voiced_frames := [] }, some s1.voiced_frames.flatten)
    else (s1, none)

/-! ### Word store (src/services/database.py and the schema scripts) -/

/-- The columns of the words table created by setup_database_python.py. -/
def wordsTableColumns : List String :=
  ["id", "ayah_id", "word_position", "word_arabic_with_harakat",
    "word_arabic_simple", "word_transliteration", "word_translation_en",
    "root_letters", "created_at"]

/-- The column QuranDatabase.get_ayah_words selects from the words table. -/
def getAyahWordsSelectedColumn : String := "word_arabic"

/-- The dictionary keys main.py reads from every expected word. -/
def mainRequiredWordKeys : List String := ["with_harakat", "simple"]

/-- The database state seen by QuranDatabase.get_ayah_words: the first query
resolving a (surah, ayah) pair to an ayah id, and the second query reading
the word rows of an ayah id (an Except, since the selected column may not
exist in the connected schema). -/
structure QuranDB where
  ayahId : Nat → Nat → Option Nat
  wordsQuery : Nat → Except PyStr (List PyStr)

/-- The message of the ValueError raised by get_ayah_words for a missing
ayah: the f-string Ayah not found with the surah and ayah numbers. -/
def ayahNotFoundMsg (surah ayah : Nat) : PyStr :=
  ("Ayah not found: ".toList) ++ (toString surah).toList ++
    ':' :: (toString ayah).toList

/-- QuranDatabase.get_ayah_words: resolve the ayah id, raising Ayah not
found when the pair is absent, then run the words query. -/
def get_ayah_words (db : QuranDB) (surah ayah : Nat) :
    Except PyStr (List PyStr) :=
  match db.ayahId surah ayah with
  | none => .error (ayahNotFoundMsg surah ayah)
  | some i => db.wordsQuery i

/-! ### Recitation session (src/main.py) -/

/-- One expected word, in both textual forms, as main.py consumes it from
the word store (the dictionary keys with_harakat and simple). -/
structure Word where
  with_harakat : PyStr
  simple : PyStr
deriving DecidableEq

/-- One entry of the session result list: the word_result dictionary built
in RecitationSession.process_audio_chunk, holding the word index, both
expected forms, and every field of the comparison dictionary. -/
structure WordResult where
  word_index : Nat
  expected : PyStr
  expected_with_harakat : PyStr
  user_said : PyStr
  expected_normalized : PyStr
  user_normalized : PyStr
  similarity : ℚ
  status : PyStr
  color : PyStr
  message : PyStr
deriving DecidableEq

/-- The mutable state of one RecitationSession. -/
structure Session where
  surah : Nat
  ayah : Nat
  vad : VADState
  current_word_index : Nat
  expected_words : List Word
  results : List WordResult
deriving DecidableEq

/-- RecitationSession.is_complete: every expected word has been evaluated. -/
def is_complete (s : Session) : Bool :=
  s.expected_words.length ≤ s.current_word_index

/-- The session statistics dictionary of get_final_stats.  The results field
is optional because the empty-results early return omits that key. -/
structure Stats where
  total_words : Nat
  correct_words : Nat
  overall_accuracy : ℚ
  results : Option (List WordResult)
deriving DecidableEq

/-- RecitationSession.get_final_stats: all-zero statistics for an empty
result list, otherwise the word count, the count of correct results, and
the mean similarity rounded to two decimals. -/
def get_final_stats (s : Session) : Stats :=
  if s.results = [] then
    { total_words := 0, correct_words := 0, overall_accuracy := 0,
      results := none }
  else
    let total := s.results.length
    let correct := (s.results.filter (fun r => r.status = "correct".toList)).length
    let avg := (s.results.map (fun r => r.similarity)).sum / total
    { total_words := total, correct_words := correct,
      overall_accuracy := round2 avg, results := some s.results }

/-- The JSON events the websocket endpoint sends, one case per type tag.
The wsError case is the error payload of the outer exception handler, which
carries no word index. -/
inductive Event where
  | session_started (surah ayah : Nat) (expected_words : List PyStr)
      (expected_words_with_harakat : List PyStr) (total_words : Nat)
  | word_result (r : WordResult)
  | completeNotice (message : PyStr)
  | errorEvent (message : PyStr) (word_index : Nat)
  | session_complete (stats : Stats)
  | wsError (message : PyStr)
deriving DecidableEq

/-- The word_result dictionary built in process_audio_chunk: the word
index, both expected forms, and every field of the comparison dictionary
produced by the scorer. -/
def mkWordResult (w : Word) (idx : Nat) (user_said : PyStr) : WordResult :=
  let comparison := compare_words w.simple user_said
  { word_index := idx
    expected := comparison.expected
    expected_with_harakat := w.with_harakat
    user_said := comparison.user_said
    expected_normalized := comparison.expected_normalized
    user_normalized := comparison.user_normalized
    similarity := comparison.similarity
    status := comparison.status
    color := comparison.color
    message := comparison.message }

/-- RecitationSession.process_audio_chunk.  The two effectful pipeline
stages are explicit parameters: processPcm models
AudioProcessor.process_pcm_to_wav (pydub plus a temp file) and transcribe
models WhisperTranscriber.transcribe followed by reading its text field;
either may fail, modelling a raised exception with its message.  The chunk
first passes through the segmenter; a falsy result (no segment, or an empty
one) returns no event.  With all words already evaluated a complete notice
is returned.  Otherwise the segment is piped through both stages and the
scorer: on success the word_result is appended and the index advances, on
failure an error event with the current word index is returned and the
session is unchanged apart from the segmenter state. -/
def processAudioChunk {W : Type} (processPcm : PyBytes → Except PyStr W)
    (transcribe : W → Except PyStr PyStr) (s : Session) (chunk : PyBytes)
    (is_speech : Bool) : Session × Option Event :=
  let (vad', seg?) := vadProcessFrame s.vad chunk is_speech
  let s1 : Session := { s with vad := vad' }
  match seg? with
  | none => (s1, none)
  | some seg =>
    if seg.isEmpty then (s1, none)
    else if h : s1.current_word_index < s1.expected_words.length then
      let w := s1.expected_words.get ⟨s1.current_word_index, h⟩
      match processPcm seg with
      | .error e => (s1, some (.errorEvent e s1.current_word_index))
      | .ok wav =>
        match transcribe wav with
        | .error e => (s1, some (.errorEvent e s1.current_word_index))
        | .ok user_said =>
          let result := mkWordResult w s1.current_word_index user_said
          ({ s1 with
              results := s1.results ++ [result]
              current_word_index := s1.current_word_index + 1 },
            some (.word_result result))
    else (s1, some (.completeNotice ("All words completed".toList)))

/-- RecitationSession.__init__ driven by a word-store lookup: a fresh
segmenter, word index zero, the fetched expected words, and no results.  A
lookup failure propagates as the raised exception. -/
def initSession (lookup : Nat → Nat → Except PyStr (List Word))
    (surah ayah : Nat) : Except PyStr Session :=
  match lookup surah ayah with
  | .error e => .error e
  | .ok ws =>
    .ok { surah := surah, ayah := ayah, vad := initVAD,
          current_word_index := 0, expected_words := ws, results := [] }

/-- One inbound websocket message: an init JSON text message, or a binary
audio chunk together with its webrtcvad speech classification. -/
inductive Msg where
  | init (surah ayah : Nat)
  | audio (chunk : PyBytes) (is_speech : Bool)

/-- The websocket_endpoint receive loop.  The state is the optional current
session (None before a successful init).  An init message replaces the
session and emits session_started; a failing init raises, which the outer
handler turns into a final error payload, ending the loop.  Audio messages
are ignored without a session; otherwise the chunk is processed and any
produced event is sent, and if the session is then complete the final
statistics are sent and the loop breaks.  The final session value is
returned along with the events, in emission order. -/
def wsLoop {W : Type} (lookup : Nat → Nat → Except PyStr (List Word))
    (processPcm : PyBytes → Except PyStr W)
    (transcribe : W → Except PyStr PyStr) :
    Option Session → List Msg → Option Session × List Event
  | sess?, [] => (sess?, [])
  | sess?, .init surah ayah :: rest =>
    match initSession lookup surah ayah with
    | .error e => (sess?, [.wsError e])
    | .ok s =>
      let ev := Event.session_started surah ayah
        (s.expected_words.map (fun w => w.simple))
        (s.expected_words.map (fun w => w.with_harakat))
        s.expected_words.length
      let (fin, evs) := wsLoop lookup processPcm transcribe (some s) rest
      (fin, ev :: evs)
  | none, .audio _ _ :: rest => wsLoop lookup processPcm transcribe none rest
  | some s, .audio chunk cls :: rest =>
    let (s', out) := processAudioChunk processPcm transcribe s chunk cls
    match out with
    | none => wsLoop lookup processPcm transcribe (some s') rest
    | some ev =>
      if is_complete s' then
        (some s', [ev, .session_complete (get_final_stats s')])
      else
        let (fin, evs) := wsLoop lookup processPcm transcribe (some s') rest
        (fin, ev :: evs)

/-- Recognizer for session_complete events. -/
def isSessionComplete : Event → Bool
  | .session_complete _ => true
  | _ => false

/-- Recognizer for word_result events. -/
def isWordResult : Event → Bool
  | .word_result _ => true
  | _ => false

/-- Recognizer for binary audio messages. -/
def isAudioMsg : Msg → Bool
  | .audio _ _ => true
  | _ => false

/-- The session invariant maintained by the orchestrator: the word index
counts exactly the accumulated results and never passes the number of
expected words. -/
def SessionInv (s : Session) : Prop :=
  s.current_word_index = s.results.length ∧
    s.current_word_index ≤ s.expected_words.length

/-! ### Concrete fixtures used by examples and witnesses -/

/-- A well-formed 960-byte speech frame. -/
def frameA : PyBytes := List.replicate 960 1

/-- A well-formed 960-byte silence frame. -/
def frameB : PyBytes := List.replicate 960 2

/-- One expected word in both forms. -/
def sampleWord : Word :=
  { with_harakat := "بِسْمِ".toList, simple := "بسم".toList }

/-- A capturing segmenter one silence frame away from flushing: eight of
the ten window slots already hold silence. -/
def emitReadyVAD : VADState :=
  { triggered := true
    ring := List.replicate 8 (frameB, false)
    voiced_frames := [frameA]
    frame_count := 9 }

/-- A session on its first expected word whose segmenter is about to emit. -/
def sampleSession : Session :=
  { surah := 1, ayah := 1, vad := emitReadyVAD, current_word_index := 0,
    expected_words := [sampleWord], results := [] }

/-- A freshly initialized session with no results. -/
def emptySession : Session :=
  { surah := 1, ayah := 1, vad := initVAD, current_word_index := 0,
    expected_words := [sampleWord], results := [] }

/-- A session holding one evaluated word result. -/
def oneResultSession : Session :=
  { surah := 1, ayah := 1, vad := initVAD, current_word_index := 1,
    expected_words := [sampleWord],
    results := [mkWordResult sampleWord 0 ("بسم".toList)] }

/-- The expected side of the rounding counterexample: 3399 matched letters
followed by 1200 unmatched ones. -/
def longExpected : PyStr :=
  List.replicate 3399 'x' ++ List.replicate 1200 'q'

/-- The transcribed side of the rounding counterexample: the 3399 matched
letters alone.  Against longExpected the score is 6798/7998 of 100, about
84.9962, which rounds to 85.00. -/
def longTranscribed : PyStr := List.replicate 3399 'x'

/-- An audio-normalize stage that always fails. -/
def failPcm : PyBytes → Except PyStr Unit :=
  fun _ => .error ("boom".toList)

/-- An audio-normalize stage that always succeeds. -/
def okPcm : PyBytes → Except PyStr Unit := fun _ => .ok ()

/-- A transcriber that always hears the first word of the basmala. -/
def okTranscribe : Unit → Except PyStr PyStr :=
  fun _ => .ok ("بسم".toList)

/-- A word store holding exactly one word. -/
def okLookup : Nat → Nat → Except PyStr (List Word) :=
  fun _ _ => .ok [sampleWord]

/-- A word store lookup that always fails. -/
def failLookup : Nat → Nat → Except PyStr (List Word) :=
  fun _ _ => .error ("nope".toList)

/-- A database with no ayahs at all. -/
def emptyDB : QuranDB :=
  { ayahId := fun _ _ => none, wordsQuery := fun _ => .ok [] }

/-- A scripted utterance: six speech frames (enough to trigger) followed by
nine silence frames (enough to flush), as websocket audio messages. -/
def utteranceMsgs : List Msg :=
  List.replicate 6 (Msg.audio frameA true) ++
    List.replicate 9 (Msg.audio frameB false)

/-- The idle segmenter after k speech frames, k at most five. -/
def idleVAD (k : Nat) : VADState :=
  { triggered := false
    ring := List.replicate k (frameA, true)
    voiced_frames := []
    frame_count := k }

/-- The capturing segmenter after the trigger and j further silence
frames, j at most eight. -/
def capturingVAD (j : Nat) : VADState :=
  { triggered := true
    ring := List.replicate j (frameB, false)
    voiced_frames := List.replicate 6 frameA ++ List.replicate j frameB
    frame_count := 6 + j }

/-- A one-word session at word index zero wrapping a given segmenter
state. -/
def runSession (v : VADState) : Session :=
  { surah := 1, ayah := 1, vad := v, current_word_index := 0,
    expected_words := [sampleWord], results := [] }

/-- The segmenter state right after the scripted utterance flushes. -/
def finalVAD : VADState :=
  { triggered := false, ring := [], voiced_frames := [], frame_count := 15 }

/-- The word result the scripted utterance produces. -/
def finalResult : WordResult := mkWordResult sampleWord 0 ("بسم".toList)

/-- The session after the scripted utterance completes its one word. -/
def finalSession : Session :=
  { surah := 1, ayah := 1, vad := finalVAD, current_word_index := 1,
    expected_words := [sampleWord], results := [finalResult] }

/-! ### Lemmas about the normalizer -/

lemma mem_pyReplace {a b c : Char} {l : PyStr} (h : c ∈ pyReplace a b l) :
    c = b ∨ (c ∈ l ∧ c ≠ a) := by
  simp only [pyReplace, List.mem_map] at h
  obtain ⟨d, hd, he⟩ := h
  by_cases hda : d = a
  · subst hda
    rw [if_pos rfl] at he
    exact Or.inl he.symm
  · rw [if_neg hda] at he
    subst he
    exact Or.inr ⟨hd, hda⟩

lemma replaceStage_good {x : PyStr} : ∀ c ∈ replaceStage x, goodChar c := by
  intro c hc
  unfold replaceStage at hc
  rcases mem_pyReplace hc with rfl | ⟨hc, h6⟩
  · simp only [goodChar]; decide
  rcases mem_pyReplace hc with rfl | ⟨hc, h5⟩
  · simp only [goodChar]; decide
  rcases mem_pyReplace hc with rfl | ⟨hc, h4⟩
  · simp only [goodChar]; decide
  rcases mem_pyReplace hc with rfl | ⟨hc, h3⟩
  · simp only [goodChar]; decide
  rcases mem_pyReplace hc with rfl | ⟨hc, h2⟩
  · simp only [goodChar]; decide
  rcases mem_pyReplace hc with rfl | ⟨hc, h1⟩
  · simp only [goodChar]; decide
  simp only [strip_tatweel, strip_tashkeel, List.mem_filter] at hc
  obtain ⟨⟨_, hk⟩, ht⟩ := hc
  refine ⟨by simpa using hk, by simpa using ht, ?_⟩
  simp only [List.mem_cons, List.not_mem_nil]
  push_neg
  exact ⟨h1, h2, h3, h4, h5, h6, not_false⟩

lemma replaceStage_fix {y : PyStr} (h : ∀ c ∈ y, goodChar c) :
    replaceStage y = y := by
  have h1 : strip_tashkeel y = y :=
    List.filter_eq_self.mpr fun c hc => by simpa using (h c hc).1
  have h2 : strip_tatweel y = y :=
    List.filter_eq_self.mpr fun c hc => by simp [(h c hc).2.1]
  have hrep : ∀ a b : Char, a ∈ (['أ', 'إ', 'آ', 'ٱ', 'ى', 'ة'] : List Char) →
      pyReplace a b y = y := by
    intro a b ha
    have heq : ∀ c ∈ y, (if c = a then b else c) = c := by
      intro c hc
      exact if_neg fun hceq => (h c hc).2.2 (by rw [hceq]; exact ha)
    calc y.map (fun c => if c = a then b else c) = y.map id :=
          List.map_congr_left heq
      _ = y := List.map_id y
  unfold replaceStage
  rw [h1, h2, hrep 'أ' 'ا' (by decide), hrep 'إ' 'ا' (by decide),
    hrep 'آ' 'ا' (by decide), hrep 'ٱ' 'ا' (by decide),
    hrep 'ى' 'ي' (by decide), hrep 'ة' 'ه' (by decide)]

lemma splitFlush_mem {st : PyStr × List PyStr} {w : PyStr}
    (h : w ∈ splitFlush st) : (w = st.1 ∧ st.1 ≠ []) ∨ w ∈ st.2 := by
  unfold splitFlush at h
  split at h
  · exact Or.inr h
  · rcases List.mem_cons.mp h with rfl | h
    · exact Or.inl ⟨rfl, by simp_all⟩
    · exact Or.inr h

lemma foldrSplit_words (l : PyStr) :
    (∀ c ∈ (l.foldr splitStep ([], [])).1, isPySpace c = false) ∧
    ∀ w ∈ (l.foldr splitStep ([], [])).2,
      w ≠ [] ∧ ∀ c ∈ w, isPySpace c = false := by
  induction l with
  | nil => simp
  | cons c cs ih =>
    obtain ⟨h1, h2⟩ := ih
    simp only [List.foldr_cons, splitStep]
    by_cases hc : isPySpace c
    · rw [if_pos hc]
      refine ⟨by simp, ?_⟩
      intro w hw
      simp only at hw
      split at hw
      · exact h2 w hw
      · rcases List.mem_cons.mp hw with rfl | hw
        · exact ⟨by simp_all, h1⟩
        · exact h2 w hw
    · rw [if_neg hc]
      refine ⟨?_, h2⟩
      intro d hd
      rcases List.mem_cons.mp hd with rfl | hd
      · simpa using hc
      · exact h1 d hd

lemma pySplit_words {l w : PyStr} (hw : w ∈ pySplit l) :
    w ≠ [] ∧ ∀ c ∈ w, isPySpace c = false := by
  obtain ⟨h1, h2⟩ := foldrSplit_words l
  rcases splitFlush_mem hw with ⟨rfl, hne⟩ | hw
  · exact ⟨hne, h1⟩
  · exact h2 w hw

lemma foldrSplit_subset (l : PyStr) :
    (∀ c ∈ (l.foldr splitStep ([], [])).1, c ∈ l) ∧
    ∀ w ∈ (l.foldr splitStep ([], [])).2, ∀ c ∈ w, c ∈ l := by
  induction l with
  | nil => simp
  | cons a cs ih =>
    obtain ⟨h1, h2⟩ := ih
    simp only [List.foldr_cons, splitStep]
    by_cases ha : isPySpace a
    · rw [if_pos ha]
      refine ⟨by simp, ?_⟩
      intro w hw c hc
      simp only at hw
      split at hw
      · exact List.mem_cons_of_mem _ (h2 w hw c hc)
      · rcases List.mem_cons.mp hw with rfl | hw
        · exact List.mem_cons_of_mem _ (h1 c hc)
        · exact List.mem_cons_of_mem _ (h2 w hw c hc)
    · rw [if_neg ha]
      refine ⟨?_, fun w hw c hc => List.mem_cons_of_mem _ (h2 w hw c hc)⟩
      intro d hd
      rcases List.mem_cons.mp hd with rfl | hd
      · exact List.mem_cons_self _ _
      · exact List.mem_cons_of_mem _ (h1 d hd)

lemma mem_pySplit {l w : PyStr} {c : Char} (hw : w ∈ pySplit l) (hc : c ∈ w) :
    c ∈ l := by
  obtain ⟨h1, h2⟩ := foldrSplit_subset l
  rcases splitFlush_mem hw with ⟨rfl, _⟩ | hw
  · exact h1 c hc
  · exact h2 w hw c hc

lemma mem_intersperse {sep w : PyStr} {t : List PyStr}
    (h : w ∈ t.intersperse sep) : w = sep ∨ w ∈ t := by
  induction t with
  | nil => simp at h
  | cons x xs ih =>
    cases xs with
    | nil =>
      simp only [List.intersperse_singleton, List.mem_singleton] at h
      exact Or.inr (by simp [h])
    | cons y ys =>
      rw [List.intersperse_cons_cons] at h
      simp only [List.mem_cons] at h
      rcases h with rfl | rfl | h
      · exact Or.inr (by simp)
      · exact Or.inl rfl
      · rcases ih (by simpa using h) with h | h
        · exact Or.inl h
        · exact Or.inr (List.mem_cons_of_mem _ h)

lemma mem_intercalateSpace {ws : List PyStr} {c : Char}
    (h : c ∈ List.intercalate [' '] ws) : c = ' ' ∨ ∃ w ∈ ws, c ∈ w := by
  unfold List.intercalate at h
  obtain ⟨m, hm, hcm⟩ := List.mem_flatten.mp h
  rcases mem_intersperse hm with rfl | hm
  · exact Or.inl (by simpa using hcm)
  · exact Or.inr ⟨m, hm, hcm⟩

lemma pyStrip_subset {l : PyStr} {c : Char} (h : c ∈ pyStrip l) : c ∈ l := by
  unfold pyStrip at h
  rw [List.mem_reverse] at h
  have h2 := (List.dropWhile_sublist _).subset h
  rw [List.mem_reverse] at h2
  exact (List.dropWhile_sublist _).subset h2

lemma mem_collapseWs {t : PyStr} {c : Char} (h : c ∈ collapseWs t) :
    c = ' ' ∨ c ∈ t := by
  unfold collapseWs at h
  have h2 := pyStrip_subset h
  rcases mem_intercalateSpace h2 with rfl | ⟨w, hw, hcw⟩
  · exact Or.inl rfl
  · exact Or.inr (mem_pySplit hw hcw)

lemma normalize_good {x : PyStr} : ∀ c ∈ normalize x, goodChar c := by
  intro c hc
  rcases mem_collapseWs hc with rfl | hc
  · simp only [goodChar]; decide
  · exact replaceStage_good c hc

lemma foldrSplit_allspace {sp : PyStr} (h : ∀ c ∈ sp, isPySpace c = true) :
    sp.foldr splitStep ([], []) = ([], []) := by
  induction sp with
  | nil => rfl
  | cons c cs ih =>
    simp only [List.foldr_cons, ih fun d hd => h d (List.mem_cons_of_mem _ hd)]
    simp [splitStep, h c (List.mem_cons_self _ _)]

lemma pySplit_append_space {x sp : PyStr} (h : ∀ c ∈ sp, isPySpace c = true) :
    pySplit (x ++ sp) = pySplit x := by
  unfold pySplit
  rw [List.foldr_append, foldrSplit_allspace h]

lemma pySplit_dropWhile (l : PyStr) :
    pySplit (l.dropWhile isPySpace) = pySplit l := by
  induction l with
  | nil => rfl
  | cons c cs ih =>
    rw [List.dropWhile_cons]
    split
    case isTrue hc =>
      rw [ih]
      show pySplit cs = pySplit (c :: cs)
      unfold pySplit
      simp only [List.foldr_cons]
      rw [show splitStep c (cs.foldr splitStep ([], [])) =
          ([], splitFlush (cs.foldr splitStep ([], []))) from by
        simp [splitStep, splitFlush, hc]]
      simp [splitFlush]
    case isFalse => rfl

lemma rdrop_decomp (m : PyStr) :
    m = (m.reverse.dropWhile isPySpace).reverse ++
        (m.reverse.takeWhile isPySpace).reverse ∧
    ∀ c ∈ (m.reverse.takeWhile isPySpace).reverse, isPySpace c = true := by
  constructor
  · calc m = m.reverse.reverse := (List.reverse_reverse m).symm
      _ = (m.reverse.takeWhile isPySpace ++ m.reverse.dropWhile isPySpace).reverse := by
          rw [List.takeWhile_append_dropWhile]
      _ = (m.reverse.dropWhile isPySpace).reverse ++
          (m.reverse.takeWhile isPySpace).reverse := List.reverse_append _ _
  · intro c hc
    rw [List.mem_reverse] at hc
    exact List.mem_takeWhile_imp hc

lemma pySplit_pyStrip (l : PyStr) : pySplit (pyStrip l) = pySplit l := by
  unfold pyStrip
  obtain ⟨hdec, hsp⟩ := rdrop_decomp (l.dropWhile isPySpace)
  have h1 : pySplit (l.dropWhile isPySpace) =
      pySplit (((l.dropWhile isPySpace).reverse.dropWhile isPySpace).reverse) := by
    conv_lhs => rw [hdec]
    exact pySplit_append_space hsp
  rw [← h1, pySplit_dropWhile]

lemma foldr_word {w : PyStr} (hw : ∀ c ∈ w, isPySpace c = false)
    (st : PyStr × List PyStr) : w.foldr splitStep st = (w ++ st.1, st.2) := by
  induction w with
  | nil => simp
  | cons c cs ih =>
    simp only [List.foldr_cons, ih fun d hd => hw d (List.mem_cons_of_mem _ hd)]
    simp [splitStep, hw c (List.mem_cons_self _ _)]

lemma intercalate_two (x : Char) (a b : PyStr) (t : List PyStr) :
    List.intercalate [x] (a :: b :: t) =
      a ++ x :: List.intercalate [x] (b :: t) := by
  simp [List.intercalate, List.intersperse_cons_cons]

lemma pySplit_intercalate {ws : List PyStr}
    (h : ∀ w ∈ ws, w ≠ [] ∧ ∀ c ∈ w, isPySpace c = false) :
    pySplit (List.intercalate [' '] ws) = ws := by
  induction ws with
  | nil => rfl
  | cons w t ih =>
    obtain ⟨hne, hnw⟩ := h w (List.mem_cons_self _ _)
    cases t with
    | nil =>
      rw [show List.intercalate [' '] [w] = w from by simp [List.intercalate]]
      unfold pySplit
      rw [foldr_word hnw _]
      simp [splitFlush, List.isEmpty_iff, hne]
    | cons w' t' =>
      rw [intercalate_two]
      have hrest := ih fun u hu => h u (List.mem_cons_of_mem _ hu)
      unfold pySplit at hrest ⊢
      rw [List.foldr_append, List.foldr_cons]
      rw [show splitStep ' '
          ((List.intercalate [' '] (w' :: t')).foldr splitStep ([], [])) =
          ([], splitFlush ((List.intercalate [' '] (w' :: t')).foldr splitStep
            ([], []))) from by
        simp [splitStep, splitFlush, show isPySpace ' ' = true from by decide]]
      rw [hrest, foldr_word hnw _]
      simp [splitFlush, List.isEmpty_iff, hne]

lemma pySplit_collapseWs (t : PyStr) : pySplit (collapseWs t) = pySplit t := by
  unfold collapseWs
  rw [pySplit_pyStrip, pySplit_intercalate fun w hw => pySplit_words hw]

lemma normalize_eq_self {l : PyStr} (hg : ∀ c ∈ l, goodChar c)
    (hw : ∀ c ∈ l, isPySpace c = false) (hne : l ≠ []) : normalize l = l := by
  have h1 : replaceStage l = l := replaceStage_fix hg
  have h2 : pySplit l = [l] := by
    unfold pySplit
    rw [foldr_word hw]
    simp [splitFlush, List.isEmpty_iff, hne]
  have h3 : List.intercalate [' '] [l] = l := by simp [List.intercalate]
  have h4 : pyStrip l = l := by
    unfold pyStrip
    have hd : l.dropWhile isPySpace = l := by
      cases l with
      | nil => rfl
      | cons c cs =>
        rw [List.dropWhile_cons]
        simp [hw c (List.mem_cons_self _ _)]
    rw [hd]
    have hr : l.reverse.dropWhile isPySpace = l.reverse := by
      cases hrev : l.reverse with
      | nil => rfl
      | cons c cs =>
        have hcmem : c ∈ l := by
          rw [← List.mem_reverse, hrev]
          exact List.mem_cons_self _ _
        rw [List.dropWhile_cons]
        simp [hw c hcmem]
    rw [hr, List.reverse_reverse]
  show collapseWs (replaceStage l) = l
  rw [h1]
  unfold collapseWs
  rw [h2, h3, h4]

lemma collapseWs_idem (t : PyStr) : collapseWs (collapseWs t) = collapseWs t := by
  calc collapseWs (collapseWs t)
      = pyStrip (List.intercalate [' '] (pySplit (collapseWs t))) := rfl
    _ = pyStrip (List.intercalate [' '] (pySplit t)) := by
        rw [pySplit_collapseWs]
    _ = collapseWs t := rfl

/-! ### Lemmas about the similarity score -/

lemma lcsAux_le (n : Nat) : ∀ a b : PyStr,
    lcsAux n a b ≤ a.length ∧ lcsAux n a b ≤ b.length := by
  induction n with
  | zero => intro a b; simp [lcsAux]
  | succ n ih =>
    intro a b
    cases a with
    | nil => simp [lcsAux]
    | cons x xs =>
      cases b with
      | nil => simp [lcsAux]
      | cons y ys =>
        simp only [lcsAux, List.length_cons]
        split
        · have := ih xs ys
          omega
        · have h1 := ih (x :: xs) ys
          have h2 := ih xs (y :: ys)
          simp only [List.length_cons] at h1 h2
          refine ⟨Nat.max_le.mpr ⟨?_, ?_⟩, Nat.max_le.mpr ⟨?_, ?_⟩⟩ <;> omega

lemma lcsLength_le (a b : PyStr) :
    lcsLength a b ≤ a.length ∧ lcsLength a b ≤ b.length :=
  lcsAux_le _ a b

lemma lcsAux_ge_prefix (v : List Char) : ∀ (u : List Char) (n : Nat),
    (u ++ v).length + u.length ≤ n → u.length ≤ lcsAux n (u ++ v) u := by
  intro u
  induction u with
  | nil => intro n h; simp
  | cons x u' ih =>
    intro n h
    cases n with
    | zero =>
      simp only [List.cons_append, List.length_cons, List.length_append] at h
      omega
    | succ m =>
      have hstep : lcsAux (m + 1) ((x :: u') ++ v) (x :: u')
          = lcsAux m (u' ++ v) u' + 1 := by
        rw [List.cons_append]
        simp [lcsAux]
      rw [hstep]
      have hm : (u' ++ v).length + u'.length ≤ m := by
        simp only [List.cons_append, List.length_cons, List.length_append] at h
        simp only [List.length_append]
        omega
      have hih := ih m hm
      simp only [List.length_cons]
      omega

lemma lcs_long : lcsLength longExpected longTranscribed = 3399 := by
  have hub := (lcsLength_le longExpected longTranscribed).2
  have hlenB : longTranscribed.length = 3399 := by
    unfold longTranscribed
    rw [List.length_replicate]
  have hfuel : (List.replicate 3399 'x' ++ List.replicate 1200 'q').length
      + (List.replicate 3399 'x').length
      ≤ longExpected.length + longTranscribed.length := by
    unfold longExpected longTranscribed
    rw [List.length_append, List.length_replicate, List.length_replicate]
  have hlb : 3399 ≤ lcsLength longExpected longTranscribed := by
    have h := lcsAux_ge_prefix (List.replicate 1200 'q') (List.replicate 3399 'x')
      (longExpected.length + longTranscribed.length) hfuel
    rw [List.length_replicate] at h
    exact h
  omega

lemma longExpected_chars :
    ∀ c ∈ longExpected, goodChar c ∧ isPySpace c = false := by
  intro c hc
  simp only [longExpected, List.mem_append] at hc
  rcases hc with h | h
  · rw [List.eq_of_mem_replicate h]
    exact ⟨by unfold goodChar; decide, by decide⟩
  · rw [List.eq_of_mem_replicate h]
    exact ⟨by unfold goodChar; decide, by decide⟩

lemma longTranscribed_chars :
    ∀ c ∈ longTranscribed, goodChar c ∧ isPySpace c = false := by
  intro c hc
  simp only [longTranscribed] at hc
  rw [List.eq_of_mem_replicate hc]
  exact ⟨by unfold goodChar; decide, by decide⟩

lemma seqRatio_nonneg (a b : PyStr) : 0 ≤ seqRatio a b := by
  unfold seqRatio
  split
  · norm_num
  · positivity

lemma seqRatio_le_one (a b : PyStr) : seqRatio a b ≤ 1 := by
  unfold seqRatio
  split
  case isTrue => norm_num
  case isFalse h =>
    have hlen : 0 < a.length + b.length := Nat.pos_of_ne_zero h
    have hpos : (0 : ℚ) < ((a.length + b.length : Nat) : ℚ) := by
      exact_mod_cast hlen
    rw [div_le_one (by push_cast at hpos ⊢; linarith)]
    have hle := lcsLength_le a b
    have hnat : 2 * lcsLength a b ≤ a.length + b.length := by omega
    exact_mod_cast hnat

lemma round_le_round {x y : ℚ} (h : x ≤ y) : round x ≤ round y := by
  rw [round_eq, round_eq]
  exact Int.floor_le_floor (by linarith)

lemma round2_bounds {x : ℚ} (h0 : 0 ≤ x) (h1 : x ≤ 100) :
    0 ≤ round2 x ∧ round2 x ≤ 100 := by
  unfold round2
  have hl : (0 : ℤ) ≤ round (x * 100) := by
    have h := round_le_round (show (0 : ℚ) ≤ x * 100 by nlinarith)
    simpa using h
  have hr : round (x * 100) ≤ (10000 : ℤ) := by
    have h := round_le_round (show x * 100 ≤ ((10000 : ℤ) : ℚ) by push_cast; nlinarith)
    rw [round_intCast] at h
    exact h
  constructor
  · apply div_nonneg _ (by norm_num)
    exact_mod_cast hl
  · rw [div_le_iff₀ (by norm_num)]
    calc ((round (x * 100) : ℤ) : ℚ) ≤ ((10000 : ℤ) : ℚ) := by exact_mod_cast hr
      _ = 100 * 100 := by norm_num

example : normalize ("بِسْمِ".toList) = "بسم".toList := by decide

example : (compare_words ("بسم".toList) ("بسم".toList)).status = "correct".toList := by
  decide

/-! ### Claim C1: classification order and threshold boundaries -/

/-- C1: for every pair of input strings, compare_words classifies in order
with first match winning: identical normalized forms give status correct
and color green; otherwise a similarity of at least 85 (the exact boundary
included) gives similar/yellow; otherwise at least 70 (boundary included)
gives similar/orange; otherwise wrong/red.  Amended from the claim as
stated: the thresholds are compared against the exact (unrounded)
sequence-match score out of 100, not against the rounded similarity the
result carries; the returned field is the score rounded to two decimals
and can round up onto a boundary the classification did not reach. -/
theorem c1_classification (expected user_said : PyStr) :
    ((compare_words expected user_said).status,
      (compare_words expected user_said).color) =
    if normalize expected = normalize user_said then
      ("correct".toList, "green".toList)
    else if 85 ≤ seqRatio (normalize expected) (normalize user_said) * 100 then
      ("similar".toList, "yellow".toList)
    else if 70 ≤ seqRatio (normalize expected) (normalize user_said) * 100 then
      ("similar".toList, "orange".toList)
    else
      ("wrong".toList, "red".toList) := by
  unfold compare_words
  dsimp only
  split_ifs <;> rfl

/-- C1 counterexample to the claim as stated: on 3399 matched letters with
1200 extra expected ones the exact score is 113300/1333, about 84.9962, so
the code classifies similar/orange, yet the similarity field it returns is
the rounded value 85.00 — reading the thresholds against the rounded
similarity would demand yellow here. -/
theorem c1_rounded_similarity_counterexample :
    (compare_words longExpected longTranscribed).similarity = 85 ∧
    (compare_words longExpected longTranscribed).status = "similar".toList ∧
    (compare_words longExpected longTranscribed).color = "orange".toList := by
  have hlE : longExpected.length = 4599 := by
    unfold longExpected
    rw [List.length_append, List.length_replicate, List.length_replicate]
  have hlT : longTranscribed.length = 3399 := by
    unfold longTranscribed
    rw [List.length_replicate]
  have hA : normalize longExpected = longExpected :=
    normalize_eq_self (fun c hc => (longExpected_chars c hc).1)
      (fun c hc => (longExpected_chars c hc).2)
      (fun h => by rw [h] at hlE; exact absurd hlE (by decide))
  have hB : normalize longTranscribed = longTranscribed :=
    normalize_eq_self (fun c hc => (longTranscribed_chars c hc).1)
      (fun c hc => (longTranscribed_chars c hc).2)
      (fun h => by rw [h] at hlT; exact absurd hlT (by decide))
  have hlen1 : (normalize longExpected).length = 4599 := by
    rw [hA]; exact hlE
  have hlen2 : (normalize longTranscribed).length = 3399 := by
    rw [hB]; exact hlT
  have hlcs : lcsLength (normalize longExpected) (normalize longTranscribed)
      = 3399 := by
    rw [hA, hB]; exact lcs_long
  have hne : ¬(normalize longExpected = normalize longTranscribed) := by
    intro h
    have hl := congrArg List.length h
    rw [hlen1, hlen2] at hl
    omega
  have hsim : seqRatio (normalize longExpected) (normalize longTranscribed)
      * 100 = 113300 / 1333 := by
    unfold seqRatio
    rw [hlcs, hlen1, hlen2]
    norm_num
  have hny : ¬((85 : ℚ) ≤
      seqRatio (normalize longExpected) (normalize longTranscribed) * 100) := by
    rw [hsim]; norm_num
  have ho : (70 : ℚ) ≤
      seqRatio (normalize longExpected) (normalize longTranscribed) * 100 := by
    rw [hsim]; norm_num
  refine ⟨?_, ?_, ?_⟩ <;>
    (unfold compare_words; dsimp only;
     rw [if_neg hne, if_neg hny, if_pos ho])
  rw [hsim]
  norm_num [round2, round_eq]

/-- A similarity of exactly 85.00 (score 34/40 on these strings) falls on
the inclusive yellow boundary. -/
example :
    (compare_words ("xxxxxxxxxxxxxxxxxpppppp".toList)
        ("xxxxxxxxxxxxxxxxx".toList)).similarity = 85 ∧
    (compare_words ("xxxxxxxxxxxxxxxxxpppppp".toList)
        ("xxxxxxxxxxxxxxxxx".toList)).status = "similar".toList ∧
    (compare_words ("xxxxxxxxxxxxxxxxxpppppp".toList)
        ("xxxxxxxxxxxxxxxxx".toList)).color = "yellow".toList := by
  have hne : ¬(normalize ("xxxxxxxxxxxxxxxxxpppppp".toList) =
      normalize ("xxxxxxxxxxxxxxxxx".toList)) := by decide
  have hsim : seqRatio (normalize ("xxxxxxxxxxxxxxxxxpppppp".toList))
      (normalize ("xxxxxxxxxxxxxxxxx".toList)) * 100 = 85 := by
    unfold seqRatio
    rw [show lcsLength (normalize ("xxxxxxxxxxxxxxxxxpppppp".toList))
        (normalize ("xxxxxxxxxxxxxxxxx".toList)) = 17 from by decide,
      show (normalize ("xxxxxxxxxxxxxxxxxpppppp".toList)).length = 23 from by decide,
      show (normalize ("xxxxxxxxxxxxxxxxx".toList)).length = 17 from by decide]
    norm_num
  refine ⟨?_, ?_, ?_⟩ <;>
    (unfold compare_words; dsimp only;
     rw [if_neg hne, if_pos (le_of_eq hsim.symm)])
  rw [hsim]
  norm_num [round2, round_eq]

/-- A similarity of exactly 70.00 falls on the inclusive orange boundary. -/
example :
    (compare_words ("xxxxxxxqqqqqq".toList) ("xxxxxxx".toList)).similarity = 70 ∧
    (compare_words ("xxxxxxxqqqqqq".toList) ("xxxxxxx".toList)).status =
      "similar".toList ∧
    (compare_words ("xxxxxxxqqqqqq".toList) ("xxxxxxx".toList)).color =
      "orange".toList := by
  have hne : ¬(normalize ("xxxxxxxqqqqqq".toList) = normalize ("xxxxxxx".toList)) := by
    decide
  have hsim : seqRatio (normalize ("xxxxxxxqqqqqq".toList))
      (normalize ("xxxxxxx".toList)) * 100 = 70 := by
    unfold seqRatio
    rw [show lcsLength (normalize ("xxxxxxxqqqqqq".toList))
        (normalize ("xxxxxxx".toList)) = 7 from by decide,
      show (normalize ("xxxxxxxqqqqqq".toList)).length = 13 from by decide,
      show (normalize ("xxxxxxx".toList)).length = 7 from by decide]
    norm_num
  refine ⟨?_, ?_, ?_⟩ <;>
    (unfold compare_words; dsimp only;
     rw [if_neg hne, if_neg (show ¬(85 ≤ seqRatio (normalize ("xxxxxxxqqqqqq".toList))
          (normalize ("xxxxxxx".toList)) * 100) from by rw [hsim]; norm_num),
       if_pos (le_of_eq hsim.symm)])
  rw [hsim]
  norm_num [round2, round_eq]

/-- A similarity below 70 (here 200/11, about 18.18) is classified
wrong/red. -/
example :
    (compare_words ("xqqqqqqqqq".toList) ("x".toList)).status = "wrong".toList ∧
    (compare_words ("xqqqqqqqqq".toList) ("x".toList)).color = "red".toList := by
  have hne : ¬(normalize ("xqqqqqqqqq".toList) = normalize ("x".toList)) := by decide
  have hsim : seqRatio (normalize ("xqqqqqqqqq".toList))
      (normalize ("x".toList)) * 100 = 200 / 11 := by
    unfold seqRatio
    rw [show lcsLength (normalize ("xqqqqqqqqq".toList))
        (normalize ("x".toList)) = 1 from by decide,
      show (normalize ("xqqqqqqqqq".toList)).length = 10 from by decide,
      show (normalize ("x".toList)).length = 1 from by decide]
    norm_num
  refine ⟨?_, ?_⟩ <;>
    (unfold compare_words; dsimp only;
     rw [if_neg hne, if_neg (show ¬((85 : ℚ) ≤ seqRatio (normalize ("xqqqqqqqqq".toList))
          (normalize ("x".toList)) * 100) from by rw [hsim]; norm_num),
       if_neg (show ¬((70 : ℚ) ≤ seqRatio (normalize ("xqqqqqqqqq".toList))
          (normalize ("x".toList)) * 100) from by rw [hsim]; norm_num)])

/-! ### Claim C2: similarity computation -/

/-- C2: compare_words normalizes both sides first (the normalized fields of
the result are exactly the normalized inputs), computes the
sequence-matching score, two times the matched pairs over the total length
of both normalized strings, scaled to 0..100, which always lies in the
interval 0..100, and returns it rounded to exactly two decimal places
(an integer number of hundredths). -/
theorem c2_similarity (expected user_said : PyStr) :
    (compare_words expected user_said).expected_normalized = normalize expected ∧
    (compare_words expected user_said).user_normalized = normalize user_said ∧
    (compare_words expected user_said).similarity =
      round2 (seqRatio (normalize expected) (normalize user_said) * 100) ∧
    0 ≤ seqRatio (normalize expected) (normalize user_said) * 100 ∧
    seqRatio (normalize expected) (normalize user_said) * 100 ≤ 100 ∧
    0 ≤ (compare_words expected user_said).similarity ∧
    (compare_words expected user_said).similarity ≤ 100 ∧
    ∃ z : ℤ, (compare_words expected user_said).similarity = z / 100 := by
  have he : (compare_words expected user_said).expected_normalized =
      normalize expected := by
    unfold compare_words
    dsimp only
    split_ifs <;> rfl
  have hu : (compare_words expected user_said).user_normalized =
      normalize user_said := by
    unfold compare_words
    dsimp only
    split_ifs <;> rfl
  have hs : (compare_words expected user_said).similarity =
      round2 (seqRatio (normalize expected) (normalize user_said) * 100) := by
    unfold compare_words
    dsimp only
    split_ifs <;> rfl
  have h0 : 0 ≤ seqRatio (normalize expected) (normalize user_said) * 100 := by
    have := seqRatio_nonneg (normalize expected) (normalize user_said)
    linarith
  have h100 : seqRatio (normalize expected) (normalize user_said) * 100 ≤ 100 := by
    have := seqRatio_le_one (normalize expected) (normalize user_said)
    linarith
  obtain ⟨hb0, hb100⟩ := round2_bounds h0 h100
  refine ⟨he, hu, hs, h0, h100, by rw [hs]; exact hb0, by rw [hs]; exact hb100,
    ⟨round (seqRatio (normalize expected) (normalize user_said) * 100 * 100), ?_⟩⟩
  rw [hs]
  rfl

/-! ### Claim C3: idempotence of normalize -/

/-- C3: normalize is idempotent: applying it twice gives the same result as
applying it once, for every input string. -/
theorem c3_normalize_idempotent (x : PyStr) :
    normalize (normalize x) = normalize x := by
  have hfix : replaceStage (normalize x) = normalize x :=
    replaceStage_fix normalize_good
  calc normalize (normalize x)
      = collapseWs (replaceStage (normalize x)) := rfl
    _ = collapseWs (normalize x) := by rw [hfix]
    _ = collapseWs (collapseWs (replaceStage x)) := rfl
    _ = collapseWs (replaceStage x) := collapseWs_idem _
    _ = normalize x := rfl

/-! ### Lemmas about the segmenter -/

lemma voiced_threshold (n : Nat) :
    ((0.5 : ℚ) * (ring_buffer_size : ℚ) < (n : ℚ)) ↔
      ring_buffer_size < 2 * n := by
  rw [ring_buffer_size]
  rw [show (0.5 : ℚ) * ((10 : Nat) : ℚ) = ((5 : Nat) : ℚ) from by norm_num]
  rw [Nat.cast_lt]
  omega

lemma unvoiced_threshold (n : Nat) :
    ((0.8 : ℚ) * (ring_buffer_size : ℚ) < (n : ℚ)) ↔
      4 * ring_buffer_size < 5 * n := by
  rw [ring_buffer_size]
  rw [show (0.8 : ℚ) * ((10 : Nat) : ℚ) = ((8 : Nat) : ℚ) from by norm_num]
  rw [Nat.cast_lt]
  omega

lemma vad_step_idle_empty (s : VADState) (f : PyBytes) (c : Bool)
    (h : s.triggered = false → s.voiced_frames = []) :
    (vadProcessFrame s f c).1.triggered = false →
      (vadProcessFrame s f c).1.voiced_frames = [] := by
  unfold vadProcessFrame
  dsimp only
  split_ifs <;> simp_all

lemma runVAD_idle_empty (inputs : List (PyBytes × Bool)) :
    ∀ s : VADState, (s.triggered = false → s.voiced_frames = []) →
      (runVAD s inputs).1.triggered = false →
        (runVAD s inputs).1.voiced_frames = [] := by
  induction inputs with
  | nil => intro s h; exact h
  | cons p rest ih =>
    intro s h
    obtain ⟨f, c⟩ := p
    simp only [runVAD]
    exact ih _ (vad_step_idle_empty s f c h)

lemma vad_trigger_eq {s : VADState} {f : PyBytes} {c : Bool}
    (h960 : f.length = bytes_per_frame) (htrig : s.triggered = false)
    (hcond : ring_buffer_size < 2 * numVoiced (ringAppend s.ring (f, c))) :
    vadProcessFrame s f c =
      ({ triggered := true
         ring := []
         voiced_frames := s.voiced_frames ++
           (ringAppend s.ring (f, c)).map Prod.fst
         frame_count := s.frame_count + 1 }, none) := by
  unfold vadProcessFrame
  rw [if_neg (by rw [h960]; exact fun h => h rfl)]
  dsimp only
  rw [htrig, if_pos (show (!false) = true from rfl),
    if_pos ((voiced_threshold _).mpr hcond)]

lemma vad_idle_stay_eq {s : VADState} {f : PyBytes} {c : Bool}
    (h960 : f.length = bytes_per_frame) (htrig : s.triggered = false)
    (hcond : ¬ ring_buffer_size < 2 * numVoiced (ringAppend s.ring (f, c))) :
    vadProcessFrame s f c =
      ({ s with
         ring := ringAppend s.ring (f, c)
         frame_count := s.frame_count + 1 }, none) := by
  unfold vadProcessFrame
  rw [if_neg (by rw [h960]; exact fun h => h rfl)]
  dsimp only
  rw [htrig, if_pos (show (!false) = true from rfl),
    if_neg (fun h => hcond ((voiced_threshold _).mp h))]

lemma vad_emit_eq {s : VADState} {f : PyBytes} {c : Bool}
    (h960 : f.length = bytes_per_frame) (htrig : s.triggered = true)
    (hcond : 4 * ring_buffer_size < 5 * numUnvoiced (ringAppend s.ring (f, c))) :
    vadProcessFrame s f c =
      ({ triggered := false
         ring := []
         voiced_frames := []
         frame_count := s.frame_count + 1 },
        some (s.voiced_frames ++ [f]).flatten) := by
  unfold vadProcessFrame
  rw [if_neg (by rw [h960]; exact fun h => h rfl)]
  dsimp only
  rw [htrig, if_neg (show ¬((!true) = true) from by decide),
    if_pos ((unvoiced_threshold _).mpr hcond)]

lemma vad_capture_stay_eq {s : VADState} {f : PyBytes} {c : Bool}
    (h960 : f.length = bytes_per_frame) (htrig : s.triggered = true)
    (hcond : ¬ 4 * ring_buffer_size < 5 * numUnvoiced (ringAppend s.ring (f, c))) :
    vadProcessFrame s f c =
      ({ s with
         ring := ringAppend s.ring (f, c)
         voiced_frames := s.voiced_frames ++ [f]
         frame_count := s.frame_count + 1 }, none) := by
  unfold vadProcessFrame
  rw [if_neg (by rw [h960]; exact fun h => h rfl)]
  dsimp only
  rw [htrig, if_neg (show ¬((!true) = true) from by decide),
    if_neg (fun h => hcond ((unvoiced_threshold _).mp h))]

lemma vad_malformed_eq {s : VADState} {f : PyBytes} {c : Bool}
    (h : f.length ≠ bytes_per_frame) : vadProcessFrame s f c = (s, none) := by
  unfold vadProcessFrame
  rw [if_pos h]

lemma dummy_malformed_eq {s : DummyVADState} {f : PyBytes}
    (h : f.length ≠ bytes_per_frame) : dummyProcessFrame s f = (s, none) := by
  unfold dummyProcessFrame
  rw [if_pos h]

/-! ### Claim C4: segmenter trigger and release transitions -/

/-- C4: with well-formed frames and given classifications, the untriggered
(IDLE) segmenter enters CAPTURING exactly when strictly more than half of
the ten-slot window is classified speech, moving the buffered frames in
order into the accumulator and clearing the ring buffer; the triggered
(CAPTURING) segmenter emits exactly when strictly more than 0.8 of the
window is classified silence, and the emitted segment is the concatenation
of the accumulated frames (which always include the current one), after
which accumulator and ring buffer are cleared.  In every run from the
initial state, an untriggered segmenter has an empty accumulator, so the
accumulated frames are precisely those absorbed since the transition into
CAPTURING, the moved window frames included. -/
theorem c4_segmenter_transitions :
    (∀ (s : VADState) (f : PyBytes) (c : Bool),
      f.length = bytes_per_frame → s.triggered = false →
      (ring_buffer_size < 2 * numVoiced (ringAppend s.ring (f, c)) →
        vadProcessFrame s f c =
          ({ triggered := true
             ring := []
             voiced_frames := s.voiced_frames ++
               (ringAppend s.ring (f, c)).map Prod.fst
             frame_count := s.frame_count + 1 }, none)) ∧
      (¬ ring_buffer_size < 2 * numVoiced (ringAppend s.ring (f, c)) →
        vadProcessFrame s f c =
          ({ s with
             ring := ringAppend s.ring (f, c)
             frame_count := s.frame_count + 1 }, none))) ∧
    (∀ (s : VADState) (f : PyBytes) (c : Bool),
      f.length = bytes_per_frame → s.triggered = true →
      (4 * ring_buffer_size < 5 * numUnvoiced (ringAppend s.ring (f, c)) →
        vadProcessFrame s f c =
          ({ triggered := false
             ring := []
             voiced_frames := []
             frame_count := s.frame_count + 1 },
            some (s.voiced_frames ++ [f]).flatten)) ∧
      (¬ 4 * ring_buffer_size < 5 * numUnvoiced (ringAppend s.ring (f, c)) →
        vadProcessFrame s f c =
          ({ s with
             ring := ringAppend s.ring (f, c)
             voiced_frames := s.voiced_frames ++ [f]
             frame_count := s.frame_count + 1 }, none))) ∧
    (∀ inputs : List (PyBytes × Bool),
      (runVAD initVAD inputs).1.triggered = false →
      (runVAD initVAD inputs).1.voiced_frames = []) := by
  refine ⟨?_, ?_, ?_⟩
  · intro s f c h960 htrig
    exact ⟨fun hcond => vad_trigger_eq h960 htrig hcond,
      fun hcond => vad_idle_stay_eq h960 htrig hcond⟩
  · intro s f c h960 htrig
    exact ⟨fun hcond => vad_emit_eq h960 htrig hcond,
      fun hcond => vad_capture_stay_eq h960 htrig hcond⟩
  · intro inputs
    exact runVAD_idle_empty inputs initVAD (fun _ => rfl)

set_option maxRecDepth 40000 in
/-- Witness for C4: a concrete trigger step (six speech frames fill the
window), a concrete non-trigger step, a concrete release step (nine silence
frames), a concrete non-release step, and a concrete run invariant
instance, all obtained by applying the theorem. -/
theorem c4_segmenter_transitions_witness :
    (vadProcessFrame
        { triggered := false
          ring := List.replicate 5 (List.replicate 960 1, true)
          voiced_frames := []
          frame_count := 5 }
        (List.replicate 960 1) true =
      ({ triggered := true
         ring := []
         voiced_frames := List.replicate 6 (List.replicate 960 1)
         frame_count := 6 }, none)) ∧
    (vadProcessFrame initVAD (List.replicate 960 1) true =
      ({ triggered := false
         ring := [(List.replicate 960 1, true)]
         voiced_frames := []
         frame_count := 1 }, none)) ∧
    (vadProcessFrame
        { triggered := true
          ring := List.replicate 8 (List.replicate 960 2, false)
          voiced_frames := List.replicate 14 (List.replicate 960 1)
          frame_count := 14 }
        (List.replicate 960 2) false =
      ({ triggered := false
         ring := []
         voiced_frames := []
         frame_count := 15 },
        some (List.replicate 14 (List.replicate 960 1) ++
          [List.replicate 960 2]).flatten)) ∧
    (vadProcessFrame
        { triggered := true
          ring := []
          voiced_frames := []
          frame_count := 6 }
        (List.replicate 960 2) false =
      ({ triggered := true
         ring := [(List.replicate 960 2, false)]
         voiced_frames := [List.replicate 960 2]
         frame_count := 7 },
        none)) ∧
    ((runVAD initVAD []).1.triggered = false →
      (runVAD initVAD []).1.voiced_frames = []) := by
  refine ⟨?_, ?_, ?_, ?_, ?_⟩
  · have h := (c4_segmenter_transitions.1
      { triggered := false
        ring := List.replicate 5 (List.replicate 960 1, true)
        voiced_frames := []
        frame_count := 5 }
      (List.replicate 960 1) true (by decide) rfl).1 (by decide)
    rw [h]
    refine congrArg (fun z => (z, none)) ?_
    have : ringAppend (List.replicate 5 (List.replicate 960 1, true))
        (List.replicate 960 1, true) =
        List.replicate 6 (List.replicate 960 1, true) := by decide
    rw [this]
    simp [List.map_replicate]
  · have h := (c4_segmenter_transitions.1 initVAD
      (List.replicate 960 1) true (by decide) rfl).2 (by decide)
    rw [h]
    rfl
  · have h := (c4_segmenter_transitions.2.1
      { triggered := true
        ring := List.replicate 8 (List.replicate 960 2, false)
        voiced_frames := List.replicate 14 (List.replicate 960 1)
        frame_count := 14 }
      (List.replicate 960 2) false (by decide) rfl).1 (by decide)
    rw [h]
  · have h := (c4_segmenter_transitions.2.1
      { triggered := true
        ring := []
        voiced_frames := []
        frame_count := 6 }
      (List.replicate 960 2) false (by decide) rfl).2 (by decide)
    rw [h]
    rfl
  · exact c4_segmenter_transitions.2.2 []

/-! ### Claim C5: malformed frames are rejected without state change -/

/-- C5: a frame whose byte length differs from the configured 960 bytes is
rejected by process_frame with no result and with the segmenter state, ring
buffer and accumulator left completely unchanged, for the real detector in
either state and for the dummy detector as well. -/
theorem c5_malformed_frame (s : VADState) (d : DummyVADState) (f : PyBytes)
    (c : Bool) (h : f.length ≠ bytes_per_frame) :
    vadProcessFrame s f c = (s, none) ∧ dummyProcessFrame d f = (d, none) :=
  ⟨vad_malformed_eq h, dummy_malformed_eq h⟩

/-- Witness for C5: a three-byte frame is rejected, in the IDLE state, in a
CAPTURING state, and by the dummy detector. -/
theorem c5_malformed_frame_witness :
    (vadProcessFrame initVAD [0, 1, 2] true = (initVAD, none)) ∧
    (vadProcessFrame
        { triggered := true
          ring := [([7], true)]
          voiced_frames := [[7]]
          frame_count := 3 } [0, 1, 2] false =
      ({ triggered := true
         ring := [([7], true)]
         voiced_frames := [[7]]
         frame_count := 3 }, none)) ∧
    (dummyProcessFrame initDummyVAD [0, 1, 2] = (initDummyVAD, none)) :=
  ⟨(c5_malformed_frame initVAD initDummyVAD [0, 1, 2] true (by decide)).1,
    (c5_malformed_frame
      { triggered := true
        ring := [([7], true)]
        voiced_frames := [[7]]
        frame_count := 3 } initDummyVAD [0, 1, 2] false (by decide)).1,
    (c5_malformed_frame initVAD initDummyVAD [0, 1, 2] true (by decide)).2⟩

/-! ### Lemmas about the session orchestrator -/

lemma processAudioChunk_none {W : Type} {pp : PyBytes → Except PyStr W}
    {tr : W → Except PyStr PyStr} {s : Session} {chunk : PyBytes} {cls : Bool}
    {v' : VADState} (hv : vadProcessFrame s.vad chunk cls = (v', none)) :
    processAudioChunk pp tr s chunk cls = ({ s with vad := v' }, none) := by
  unfold processAudioChunk
  rw [hv]

lemma processAudioChunk_emptySeg {W : Type} {pp : PyBytes → Except PyStr W}
    {tr : W → Except PyStr PyStr} {s : Session} {chunk : PyBytes} {cls : Bool}
    {v' : VADState} {seg : PyBytes}
    (hv : vadProcessFrame s.vad chunk cls = (v', some seg))
    (hseg : seg.isEmpty = true) :
    processAudioChunk pp tr s chunk cls = ({ s with vad := v' }, none) := by
  unfold processAudioChunk
  rw [hv]
  dsimp only
  rw [if_pos hseg]

lemma processAudioChunk_done {W : Type} {pp : PyBytes → Except PyStr W}
    {tr : W → Except PyStr PyStr} {s : Session} {chunk : PyBytes} {cls : Bool}
    {v' : VADState} {seg : PyBytes}
    (hv : vadProcessFrame s.vad chunk cls = (v', some seg))
    (hseg : seg.isEmpty = false)
    (hidx : s.expected_words.length ≤ s.current_word_index) :
    processAudioChunk pp tr s chunk cls =
      ({ s with vad := v' },
        some (.completeNotice ("All words completed".toList))) := by
  unfold processAudioChunk
  rw [hv]
  dsimp only
  rw [hseg, if_neg (by simp), dif_neg (by omega)]

lemma processAudioChunk_pcm_error {W : Type} {pp : PyBytes → Except PyStr W}
    {tr : W → Except PyStr PyStr} {s : Session} {chunk : PyBytes} {cls : Bool}
    {v' : VADState} {seg : PyBytes} {e : PyStr}
    (hv : vadProcessFrame s.vad chunk cls = (v', some seg))
    (hseg : seg.isEmpty = false)
    (hidx : s.current_word_index < s.expected_words.length)
    (hpp : pp seg = .error e) :
    processAudioChunk pp tr s chunk cls =
      ({ s with vad := v' }, some (.errorEvent e s.current_word_index)) := by
  unfold processAudioChunk
  rw [hv]
  dsimp only
  rw [hseg, if_neg (by simp), dif_pos (by omega), hpp]

lemma processAudioChunk_tr_error {W : Type} {pp : PyBytes → Except PyStr W}
    {tr : W → Except PyStr PyStr} {s : Session} {chunk : PyBytes} {cls : Bool}
    {v' : VADState} {seg : PyBytes} {w : W} {e : PyStr}
    (hv : vadProcessFrame s.vad chunk cls = (v', some seg))
    (hseg : seg.isEmpty = false)
    (hidx : s.current_word_index < s.expected_words.length)
    (hpp : pp seg = .ok w) (htr : tr w = .error e) :
    processAudioChunk pp tr s chunk cls =
      ({ s with vad := v' }, some (.errorEvent e s.current_word_index)) := by
  unfold processAudioChunk
  rw [hv]
  dsimp only
  rw [hseg, if_neg (by simp), dif_pos (by omega), hpp]
  dsimp only
  rw [htr]

lemma processAudioChunk_ok {W : Type} {pp : PyBytes → Except PyStr W}
    {tr : W → Except PyStr PyStr} {s : Session} {chunk : PyBytes} {cls : Bool}
    {v' : VADState} {seg : PyBytes} {w : W} {txt : PyStr}
    (hv : vadProcessFrame s.vad chunk cls = (v', some seg))
    (hseg : seg.isEmpty = false)
    (hidx : s.current_word_index < s.expected_words.length)
    (hpp : pp seg = .ok w) (htr : tr w = .ok txt) :
    processAudioChunk pp tr s chunk cls =
      ({ s with
          vad := v'
          results := s.results ++
            [mkWordResult (s.expected_words.get ⟨s.current_word_index, hidx⟩)
              s.current_word_index txt]
          current_word_index := s.current_word_index + 1 },
        some (.word_result
          (mkWordResult (s.expected_words.get ⟨s.current_word_index, hidx⟩)
            s.current_word_index txt))) := by
  unfold processAudioChunk
  rw [hv]
  dsimp only
  rw [hseg, if_neg (by simp), dif_pos (by omega), hpp]
  dsimp only
  rw [htr]

lemma processAudioChunk_spec {W : Type} (pp : PyBytes → Except PyStr W)
    (tr : W → Except PyStr PyStr) (s : Session) (chunk : PyBytes) (cls : Bool) :
    ((processAudioChunk pp tr s chunk cls).1.current_word_index =
        s.current_word_index ∧
      (processAudioChunk pp tr s chunk cls).1.results = s.results ∧
      (processAudioChunk pp tr s chunk cls).1.expected_words =
        s.expected_words ∧
      ((processAudioChunk pp tr s chunk cls).2 = none ∨
       (∃ m, (processAudioChunk pp tr s chunk cls).2 =
          some (.errorEvent m s.current_word_index)) ∨
       ((∃ m, (processAudioChunk pp tr s chunk cls).2 =
          some (.completeNotice m)) ∧
         s.expected_words.length ≤ s.current_word_index))) ∨
    (∃ r, (processAudioChunk pp tr s chunk cls).1.current_word_index =
        s.current_word_index + 1 ∧
      (processAudioChunk pp tr s chunk cls).1.results = s.results ++ [r] ∧
      (processAudioChunk pp tr s chunk cls).1.expected_words =
        s.expected_words ∧
      (processAudioChunk pp tr s chunk cls).2 = some (.word_result r) ∧
      s.current_word_index < s.expected_words.length) := by
  rcases hv : vadProcessFrame s.vad chunk cls with ⟨v', seg?⟩
  cases seg? with
  | none =>
    rw [processAudioChunk_none hv]
    left
    exact ⟨rfl, rfl, rfl, Or.inl rfl⟩
  | some seg =>
    rcases hseg : seg.isEmpty with hF | hT
    · by_cases hidx : s.current_word_index < s.expected_words.length
      · rcases hpp : pp seg with e | w
        · rw [processAudioChunk_pcm_error hv hseg hidx hpp]
          left
          exact ⟨rfl, rfl, rfl, Or.inr (Or.inl ⟨e, rfl⟩)⟩
        · rcases htr : tr w with e | txt
          · rw [processAudioChunk_tr_error hv hseg hidx hpp htr]
            left
            exact ⟨rfl, rfl, rfl, Or.inr (Or.inl ⟨e, rfl⟩)⟩
          · rw [processAudioChunk_ok hv hseg hidx hpp htr]
            right
            exact ⟨_, rfl, rfl, rfl, rfl, hidx⟩
      · rw [processAudioChunk_done hv hseg (by omega)]
        left
        exact ⟨rfl, rfl, rfl, Or.inr (Or.inr ⟨⟨_, rfl⟩, by omega⟩)⟩
    · rw [processAudioChunk_emptySeg hv hseg]
      left
      exact ⟨rfl, rfl, rfl, Or.inl rfl⟩

lemma get_final_stats_complete {s : Session} (hinv : SessionInv s)
    (hc : is_complete s = true) :
    (get_final_stats s).total_words = s.expected_words.length := by
  obtain ⟨h1, h2⟩ := hinv
  unfold is_complete at hc
  simp only [decide_eq_true_eq] at hc
  unfold get_final_stats
  by_cases hres : s.results = []
  · rw [if_pos hres]
    rw [hres] at h1
    simp only [List.length_nil] at h1
    show 0 = s.expected_words.length
    omega
  · rw [if_neg hres]
    dsimp only
    omega

lemma wsLoop_audio_run {W : Type} (lookup : Nat → Nat → Except PyStr (List Word))
    (pp : PyBytes → Except PyStr W) (tr : W → Except PyStr PyStr) :
    ∀ (msgs : List Msg) (s : Session),
      (∀ m ∈ msgs, isAudioMsg m = true) → SessionInv s →
      ((wsLoop lookup pp tr (some s) msgs).2.countP isSessionComplete ≤ 1) ∧
      (∀ l₁ st l₂,
        (wsLoop lookup pp tr (some s) msgs).2 =
          l₁ ++ .session_complete st :: l₂ →
        l₂ = [] ∧ st.total_words = s.expected_words.length ∧
        l₁.countP isWordResult + s.current_word_index =
          s.expected_words.length) ∧
      (s.current_word_index < s.expected_words.length →
        s.expected_words.length ≤
          (wsLoop lookup pp tr (some s) msgs).2.countP isWordResult +
            s.current_word_index →
        (wsLoop lookup pp tr (some s) msgs).2.countP isSessionComplete = 1) := by
  intro msgs
  induction msgs with
  | nil =>
    intro s _ _
    refine ⟨by simp [wsLoop], ?_, ?_⟩
    · intro l₁ st l₂ h
      rw [show (wsLoop lookup pp tr (some s) []).2 = [] from rfl] at h
      exact absurd h.symm (by simp)
    · intro hlt hcount
      rw [show (wsLoop lookup pp tr (some s) []).2 = [] from rfl] at hcount
      simp only [List.countP_nil] at hcount
      exact absurd hcount (by omega)
  | cons m rest ih =>
    intro s haudio hinv
    have hm := haudio m (List.mem_cons_self _ _)
    cases m with
    | init a b => simp [isAudioMsg] at hm
    | audio chunk cls =>
      have hrest : ∀ m' ∈ rest, isAudioMsg m' = true :=
        fun m' hm' => haudio m' (List.mem_cons_of_mem _ hm')
      rcases hpa : processAudioChunk pp tr s chunk cls with ⟨s', out⟩
      have spec := processAudioChunk_spec pp tr s chunk cls
      rw [hpa] at spec
      dsimp only at spec
      cases out with
      | none =>
        have hspec : s'.current_word_index = s.current_word_index ∧
            s'.results = s.results ∧ s'.expected_words = s.expected_words := by
          rcases spec with ⟨h1, h2, h3, _⟩ | ⟨r, _, _, _, hout, _⟩
          · exact ⟨h1, h2, h3⟩
          · simp at hout
        obtain ⟨hi, hr, he⟩ := hspec
        have hinv' : SessionInv s' :=
          ⟨by rw [hi, hr]; exact hinv.1, by rw [hi, he]; exact hinv.2⟩
        have hIH := ih s' hrest hinv'
        have hw : wsLoop lookup pp tr (some s) (Msg.audio chunk cls :: rest) =
            wsLoop lookup pp tr (some s') rest := by
          simp [wsLoop, hpa]
        refine ⟨?_, ?_, ?_⟩
        · rw [hw]
          exact hIH.1
        · intro l₁ st l₂ hdec
          rw [hw] at hdec
          obtain ⟨hl2, hst, hcnt⟩ := hIH.2.1 l₁ st l₂ hdec
          refine ⟨hl2, by rw [hst, he], ?_⟩
          rw [← hi, ← he]
          exact hcnt
        · intro hlt hcount
          rw [hw] at hcount ⊢
          refine hIH.2.2 ?_ ?_
          · rw [hi, he]
            exact hlt
          · rw [hi, he]
            exact hcount
      | some ev =>
        rcases spec with ⟨hi, hr, he, hout⟩ | ⟨r, hi, hr, he, hout, hlt⟩
        · -- step without advancement: the event is an error or complete notice
          have hinv' : SessionInv s' :=
            ⟨by rw [hi, hr]; exact hinv.1, by rw [hi, he]; exact hinv.2⟩
          have hcomp : is_complete s' = true →
              s.expected_words.length ≤ s.current_word_index := by
            intro hcc
            unfold is_complete at hcc
            rw [he, hi] at hcc
            simpa using hcc
          have hevshape : isSessionComplete ev = false ∧
              isWordResult ev = false := by
            rcases hout with h | ⟨mm, h⟩ | ⟨⟨mm, h⟩, _⟩
            · simp at h
            · simp only [Option.some.injEq] at h
              subst h
              exact ⟨rfl, rfl⟩
            · simp only [Option.some.injEq] at h
              subst h
              exact ⟨rfl, rfl⟩
          by_cases hc : is_complete s' = true
          · have hw : wsLoop lookup pp tr (some s)
                (Msg.audio chunk cls :: rest) =
                (some s', [ev, .session_complete (get_final_stats s')]) := by
              simp [wsLoop, hpa, hc]
            refine ⟨?_, ?_, ?_⟩
            · rw [hw]
              dsimp only
              rw [List.countP_cons, List.countP_cons, List.countP_nil,
                hevshape.1]
              simp [isSessionComplete]
            swap
            · intro hlt hcount
              exact absurd (hcomp hc) (by omega)
            · intro l₁ st l₂ hdec
              rw [hw] at hdec
              dsimp only at hdec
              cases l₁ with
              | nil =>
                simp only [List.nil_append, List.cons.injEq] at hdec
                rw [hdec.1] at hevshape
                simp [isSessionComplete] at hevshape
              | cons a l₁' =>
                simp only [List.cons_append, List.cons.injEq] at hdec
                obtain ⟨rfl, hdec2⟩ := hdec
                cases l₁' with
                | nil =>
                  simp only [List.nil_append, List.cons.injEq] at hdec2
                  obtain ⟨hsteq, hl2⟩ := hdec2
                  have hst : st = get_final_stats s' := by
                    injection hsteq.symm
                  refine ⟨hl2.symm, ?_, ?_⟩
                  · rw [hst, get_final_stats_complete hinv' hc, he]
                  · have h0 : List.countP isWordResult [ev] = 0 := by
                      simp [List.countP_cons, hevshape.2]
                    rw [h0]
                    have := hcomp hc
                    have := hinv.2
                    omega
                | cons b l₁'' =>
                  simp only [List.cons_append, List.cons.injEq] at hdec2
                  exact absurd hdec2.2 (by simp)
          · have hw : wsLoop lookup pp tr (some s)
                (Msg.audio chunk cls :: rest) =
                ((wsLoop lookup pp tr (some s') rest).1,
                  ev :: (wsLoop lookup pp tr (some s') rest).2) := by
              simp [wsLoop, hpa, hc]
            have hIH := ih s' hrest hinv'
            refine ⟨?_, ?_, ?_⟩
            · rw [hw]
              dsimp only
              rw [List.countP_cons, hevshape.1]
              simpa using hIH.1
            · intro l₁ st l₂ hdec
              rw [hw] at hdec
              dsimp only at hdec
              cases l₁ with
              | nil =>
                simp only [List.nil_append, List.cons.injEq] at hdec
                rw [hdec.1] at hevshape
                simp [isSessionComplete] at hevshape
              | cons a l₁' =>
                simp only [List.cons_append, List.cons.injEq] at hdec
                obtain ⟨rfl, hdec2⟩ := hdec
                obtain ⟨hl2, hst, hcnt⟩ := hIH.2.1 l₁' st l₂ hdec2
                refine ⟨hl2, by rw [hst, he], ?_⟩
                rw [List.countP_cons, hevshape.2]
                rw [← hi, ← he]
                simpa using hcnt
            · intro hlt hcount
              rw [hw] at hcount ⊢
              dsimp only at hcount ⊢
              rw [List.countP_cons, hevshape.2] at hcount
              simp only [Bool.false_eq_true, if_false, Nat.add_zero] at hcount
              have hres := hIH.2.2 (by rw [hi, he]; exact hlt)
                (by rw [hi, he]; exact hcount)
              rw [List.countP_cons, hevshape.1]
              simpa using hres
        · -- successful scoring step: the event is a word result
          simp only [Option.some.injEq] at hout
          subst hout
          have hinv' : SessionInv s' := by
            constructor
            · rw [hi, hr]
              simp [hinv.1]
            · rw [hi, he]
              omega
          by_cases hc : is_complete s' = true
          · have hw : wsLoop lookup pp tr (some s)
                (Msg.audio chunk cls :: rest) =
                (some s', [.word_result r,
                  .session_complete (get_final_stats s')]) := by
              simp [wsLoop, hpa, hc]
            have hN : s.current_word_index + 1 = s.expected_words.length := by
              unfold is_complete at hc
              rw [he, hi] at hc
              simp only [decide_eq_true_eq] at hc
              omega
            refine ⟨?_, ?_, ?_⟩
            · rw [hw]
              simp [List.countP_cons, isSessionComplete]
            swap
            · intro hlt hcount
              rw [hw]
              dsimp only
              simp [List.countP_cons, isSessionComplete]
            · intro l₁ st l₂ hdec
              rw [hw] at hdec
              dsimp only at hdec
              cases l₁ with
              | nil =>
                simp only [List.nil_append, List.cons.injEq] at hdec
                exact absurd hdec.1 (by simp)
              | cons a l₁' =>
                simp only [List.cons_append, List.cons.injEq] at hdec
                obtain ⟨rfl, hdec2⟩ := hdec
                cases l₁' with
                | nil =>
                  simp only [List.nil_append, List.cons.injEq] at hdec2
                  obtain ⟨hsteq, hl2⟩ := hdec2
                  have hst : st = get_final_stats s' := by
                    injection hsteq.symm
                  refine ⟨hl2.symm, ?_, ?_⟩
                  · rw [hst, get_final_stats_complete hinv' hc, he]
                  · have h1 : List.countP isWordResult [Event.word_result r] = 1 := by
                      simp [List.countP_cons, isWordResult]
                    rw [h1]
                    omega
                | cons b l₁'' =>
                  simp only [List.cons_append, List.cons.injEq] at hdec2
                  exact absurd hdec2.2 (by simp)
          · have hw : wsLoop lookup pp tr (some s)
                (Msg.audio chunk cls :: rest) =
                ((wsLoop lookup pp tr (some s') rest).1,
                  .word_result r ::
                    (wsLoop lookup pp tr (some s') rest).2) := by
              simp [wsLoop, hpa, hc]
            have hIH := ih s' hrest hinv'
            refine ⟨?_, ?_, ?_⟩
            · rw [hw]
              dsimp only
              rw [List.countP_cons]
              simpa [isSessionComplete] using hIH.1
            · intro l₁ st l₂ hdec
              rw [hw] at hdec
              dsimp only at hdec
              cases l₁ with
              | nil =>
                simp only [List.nil_append, List.cons.injEq] at hdec
                exact absurd hdec.1 (by simp)
              | cons a l₁' =>
                simp only [List.cons_append, List.cons.injEq] at hdec
                obtain ⟨rfl, hdec2⟩ := hdec
                obtain ⟨hl2, hst, hcnt⟩ := hIH.2.1 l₁' st l₂ hdec2
                refine ⟨hl2, by rw [hst, he], ?_⟩
                rw [List.countP_cons]
                simp only [isWordResult]
                rw [← he]
                rw [hi] at hcnt
                simp only [if_true]
                omega
            · intro hlt hcount
              rw [hw] at hcount ⊢
              dsimp only at hcount ⊢
              have hlt' : s'.current_word_index < s'.expected_words.length := by
                have hcb := hc
                unfold is_complete at hcb
                simp only [decide_eq_true_eq] at hcb
                omega
              simp [List.countP_cons, isWordResult] at hcount
              have hres := hIH.2.2 hlt' (by rw [hi, he]; omega)
              simpa [List.countP_cons, isSessionComplete] using hres

/-! ### Claim C6: pipeline failure does not advance the session -/

/-- C6: if the segmenter completes a segment for word index i but the
audio-normalize or transcription stage fails, process_audio_chunk returns
an error event carrying index i and the failure message, the word index
and the result list are unchanged (only the segmenter state moved), the
session is still active, and any later successfully processed segment is
scored against the same expected word i. -/
theorem c6_error_non_advancement {W : Type} (pp : PyBytes → Except PyStr W)
    (tr : W → Except PyStr PyStr) (s : Session) (chunk : PyBytes) (cls : Bool)
    {v' : VADState} {seg : PyBytes} {e : PyStr}
    (hv : vadProcessFrame s.vad chunk cls = (v', some seg))
    (hseg : seg.isEmpty = false)
    (hidx : s.current_word_index < s.expected_words.length)
    (hfail : pp seg = .error e ∨ ∃ w, pp seg = .ok w ∧ tr w = .error e) :
    processAudioChunk pp tr s chunk cls =
      ({ s with vad := v' }, some (.errorEvent e s.current_word_index)) ∧
    ({ s with vad := v' }).current_word_index = s.current_word_index ∧
    ({ s with vad := v' }).results = s.results ∧
    is_complete { s with vad := v' } = false ∧
    (∀ (chunk₂ : PyBytes) (cls₂ : Bool) (v₂ : VADState) (seg₂ : PyBytes)
        (w : W) (txt : PyStr),
      vadProcessFrame v' chunk₂ cls₂ = (v₂, some seg₂) →
      seg₂.isEmpty = false →
      pp seg₂ = .ok w → tr w = .ok txt →
      (processAudioChunk pp tr { s with vad := v' } chunk₂ cls₂).2 =
        some (.word_result
          (mkWordResult (s.expected_words.get ⟨s.current_word_index, hidx⟩)
            s.current_word_index txt))) := by
  refine ⟨?_, rfl, rfl, ?_, ?_⟩
  · rcases hfail with hpp | ⟨w, hpp, htr⟩
    · exact processAudioChunk_pcm_error hv hseg hidx hpp
    · exact processAudioChunk_tr_error hv hseg hidx hpp htr
  · unfold is_complete
    simp only [decide_eq_false_iff_not]
    omega
  · intro chunk₂ cls₂ v₂ seg₂ w txt hv₂ hseg₂ hpp htr
    rw [processAudioChunk_ok (s := { s with vad := v' }) hv₂ hseg₂ hidx hpp htr]

set_option maxRecDepth 40000 in
/-- Witness for C6: a session whose segmenter flushes a segment while the
audio-normalize stage fails: the error event carries word index 0 and the
session advances nothing. -/
theorem c6_error_non_advancement_witness :
    processAudioChunk failPcm okTranscribe sampleSession frameB false =
      ({ sampleSession with
          vad := { triggered := false, ring := [], voiced_frames := []
                   frame_count := 10 } },
        some (.errorEvent ("boom".toList) 0)) :=
  (c6_error_non_advancement failPcm okTranscribe sampleSession frameB false
    (vad_emit_eq (by decide) rfl (by decide)) (by decide) (by decide)
    (Or.inl rfl)).1

/-! ### Claim C7: completion is reached once and reported exactly once -/

/-- C7: in a websocket run that initializes a session for an ayah with N
expected words and then feeds only audio, at most one session_complete
event is ever emitted; if one is emitted it is the final event, its
total-word count equals N, and it is preceded by exactly N word_result
events; and conversely, whenever the run contains N successfully scored
segments (N word_result events, N positive), a session_complete is
actually emitted, exactly once.  Together: completion happens exactly
after the N-th successfully scored segment, session_complete is sent
exactly once with totalWords = N, and no word_result follows it. -/
theorem c7_session_completion {W : Type}
    (lookup : Nat → Nat → Except PyStr (List Word))
    (pp : PyBytes → Except PyStr W) (tr : W → Except PyStr PyStr)
    (surah ayah : Nat) (ws : List Word) (msgs : List Msg)
    (haudio : ∀ m ∈ msgs, isAudioMsg m = true)
    (hlk : lookup surah ayah = .ok ws) :
    ((wsLoop lookup pp tr none
      (.init surah ayah :: msgs)).2.countP isSessionComplete ≤ 1) ∧
    (∀ l₁ st l₂,
      (wsLoop lookup pp tr none (.init surah ayah :: msgs)).2 =
        l₁ ++ .session_complete st :: l₂ →
      l₂ = [] ∧ st.total_words = ws.length ∧
      l₁.countP isWordResult = ws.length) ∧
    (0 < ws.length →
      (wsLoop lookup pp tr none
        (.init surah ayah :: msgs)).2.countP isWordResult = ws.length →
      (wsLoop lookup pp tr none
        (.init surah ayah :: msgs)).2.countP isSessionComplete = 1) := by
  have hw2 : (wsLoop lookup pp tr none (.init surah ayah :: msgs)).2 =
      .session_started surah ayah (ws.map (fun w => w.simple))
          (ws.map (fun w => w.with_harakat)) ws.length ::
        (wsLoop lookup pp tr (some
          { surah := surah, ayah := ayah, vad := initVAD,
            current_word_index := 0, expected_words := ws,
            results := [] }) msgs).2 := by
    simp [wsLoop, initSession, hlk]
  have hrun := wsLoop_audio_run lookup pp tr msgs
    { surah := surah, ayah := ayah, vad := initVAD,
      current_word_index := 0, expected_words := ws, results := [] }
    haudio ⟨rfl, Nat.zero_le _⟩
  refine ⟨?_, ?_, ?_⟩
  · rw [hw2, List.countP_cons]
    simpa [isSessionComplete] using hrun.1
  · intro l₁ st l₂ hdec
    rw [hw2] at hdec
    cases l₁ with
    | nil =>
      simp only [List.nil_append, List.cons.injEq] at hdec
      exact absurd hdec.1 (by simp)
    | cons a l₁' =>
      simp only [List.cons_append, List.cons.injEq] at hdec
      obtain ⟨rfl, hdec2⟩ := hdec
      obtain ⟨hl2, hst, hcnt⟩ := hrun.2.1 l₁' st l₂ hdec2
      refine ⟨hl2, hst, ?_⟩
      rw [List.countP_cons]
      simpa [isWordResult] using hcnt
  · intro hN hcount
    rw [hw2] at hcount ⊢
    rw [List.countP_cons] at hcount ⊢
    simp only [isWordResult] at hcount
    simp only [isSessionComplete]
    have hres := hrun.2.2 hN (by simp at hcount; dsimp only; omega)
    simpa using hres

set_option maxRecDepth 40000 in
/-- Witness for C7: the single-word session driven by a full scripted
utterance of six speech and nine silence frames scores its one word (one
word_result event in the run), and the theorem then yields that exactly
one session_complete is emitted. -/
theorem c7_session_completion_witness :
    (wsLoop okLookup okPcm okTranscribe none
      (.init 1 1 :: utteranceMsgs)).2.countP isSessionComplete = 1 := by
  have hmsgs : utteranceMsgs =
      [Msg.audio frameA true, Msg.audio frameA true, Msg.audio frameA true,
       Msg.audio frameA true, Msg.audio frameA true, Msg.audio frameA true,
       Msg.audio frameB false, Msg.audio frameB false, Msg.audio frameB false,
       Msg.audio frameB false, Msg.audio frameB false, Msg.audio frameB false,
       Msg.audio frameB false, Msg.audio frameB false,
       Msg.audio frameB false] := rfl
  have e1 : processAudioChunk okPcm okTranscribe
      { surah := 1, ayah := 1, vad := initVAD, current_word_index := 0,
        expected_words := [sampleWord], results := [] } frameA true =
      (runSession (idleVAD 1), none) := by
    rw [processAudioChunk_none (vad_idle_stay_eq (by decide) rfl (by decide))]
    rfl
  have e2 : processAudioChunk okPcm okTranscribe (runSession (idleVAD 1))
      frameA true = (runSession (idleVAD 2), none) := by
    rw [processAudioChunk_none (vad_idle_stay_eq (by decide) rfl (by decide))]
    rfl
  have e3 : processAudioChunk okPcm okTranscribe (runSession (idleVAD 2))
      frameA true = (runSession (idleVAD 3), none) := by
    rw [processAudioChunk_none (vad_idle_stay_eq (by decide) rfl (by decide))]
    rfl
  have e4 : processAudioChunk okPcm okTranscribe (runSession (idleVAD 3))
      frameA true = (runSession (idleVAD 4), none) := by
    rw [processAudioChunk_none (vad_idle_stay_eq (by decide) rfl (by decide))]
    rfl
  have e5 : processAudioChunk okPcm okTranscribe (runSession (idleVAD 4))
      frameA true = (runSession (idleVAD 5), none) := by
    rw [processAudioChunk_none (vad_idle_stay_eq (by decide) rfl (by decide))]
    rfl
  have e6 : processAudioChunk okPcm okTranscribe (runSession (idleVAD 5))
      frameA true = (runSession (capturingVAD 0), none) := by
    rw [processAudioChunk_none (vad_trigger_eq (by decide) rfl (by decide))]
    rfl
  have e7 : processAudioChunk okPcm okTranscribe (runSession (capturingVAD 0))
      frameB false = (runSession (capturingVAD 1), none) := by
    rw [processAudioChunk_none (vad_capture_stay_eq (by decide) rfl (by decide))]
    rfl
  have e8 : processAudioChunk okPcm okTranscribe (runSession (capturingVAD 1))
      frameB false = (runSession (capturingVAD 2), none) := by
    rw [processAudioChunk_none (vad_capture_stay_eq (by decide) rfl (by decide))]
    rfl
  have e9 : processAudioChunk okPcm okTranscribe (runSession (capturingVAD 2))
      frameB false = (runSession (capturingVAD 3), none) := by
    rw [processAudioChunk_none (vad_capture_stay_eq (by decide) rfl (by decide))]
    rfl
  have e10 : processAudioChunk okPcm okTranscribe (runSession (capturingVAD 3))
      frameB false = (runSession (capturingVAD 4), none) := by
    rw [processAudioChunk_none (vad_capture_stay_eq (by decide) rfl (by decide))]
    rfl
  have e11 : processAudioChunk okPcm okTranscribe (runSession (capturingVAD 4))
      frameB false = (runSession (capturingVAD 5), none) := by
    rw [processAudioChunk_none (vad_capture_stay_eq (by decide) rfl (by decide))]
    rfl
  have e12 : processAudioChunk okPcm okTranscribe (runSession (capturingVAD 5))
      frameB false = (runSession (capturingVAD 6), none) := by
    rw [processAudioChunk_none (vad_capture_stay_eq (by decide) rfl (by decide))]
    rfl
  have e13 : processAudioChunk okPcm okTranscribe (runSession (capturingVAD 6))
      frameB false = (runSession (capturingVAD 7), none) := by
    rw [processAudioChunk_none (vad_capture_stay_eq (by decide) rfl (by decide))]
    rfl
  have e14 : processAudioChunk okPcm okTranscribe (runSession (capturingVAD 7))
      frameB false = (runSession (capturingVAD 8), none) := by
    rw [processAudioChunk_none (vad_capture_stay_eq (by decide) rfl (by decide))]
    rfl
  have eF : processAudioChunk okPcm okTranscribe (runSession (capturingVAD 8))
      frameB false = (finalSession, some (.word_result finalResult)) := by
    have h := @processAudioChunk_ok Unit okPcm okTranscribe
      (runSession (capturingVAD 8)) frameB false _ _ () ("بسم".toList)
      (vad_emit_eq (by decide) rfl (by decide)) (by decide) (by decide)
      rfl rfl
    rw [h]
    rfl
  have hic : is_complete finalSession = true := by decide
  have hcount : (wsLoop okLookup okPcm okTranscribe none
      (.init 1 1 :: utteranceMsgs)).2.countP isWordResult =
      [sampleWord].length := by
    rw [hmsgs]
    simp only [wsLoop, initSession, okLookup, e1, e2, e3, e4, e5, e6, e7, e8,
      e9, e10, e11, e12, e13, e14, eF, hic, if_true]
    simp [isWordResult]
  exact (c7_session_completion okLookup okPcm okTranscribe 1 1 [sampleWord]
    utteranceMsgs (by decide) rfl).2.2 (by decide) hcount

/-! ### Claim C8: shape of the word-store lookup result -/

/-- C8 (code bug): the words query of QuranDatabase.get_ayah_words selects
the column word_arabic, which does not exist in the words table created by
the setup script; the schema instead stores word_arabic_with_harakat and
word_arabic_simple, and main.py reads the with_harakat and simple entries
of every expected word, so no successful init can produce the claimed
session_started payload through this lookup. -/
theorem c8_selected_column_missing :
    getAyahWordsSelectedColumn ∉ wordsTableColumns := by
  decide

/-! ### Claim C9: failed init leaves the orchestrator uninitialized -/

/-- C9: a lookup of a (surah, ayah) pair absent from the word store fails
with the Ayah-not-found error, and an init message whose lookup fails
leaves the websocket loop without any session (the error surfaces as the
outer handler's payload and nothing else happens). -/
theorem c9_ayah_not_found :
    (∀ (db : QuranDB) (surah ayah : Nat), db.ayahId surah ayah = none →
      get_ayah_words db surah ayah = .error (ayahNotFoundMsg surah ayah)) ∧
    (∀ (W : Type) (lookup : Nat → Nat → Except PyStr (List Word))
        (pp : PyBytes → Except PyStr W) (tr : W → Except PyStr PyStr)
        (surah ayah : Nat) (e : PyStr) (rest : List Msg),
      lookup surah ayah = .error e →
      wsLoop lookup pp tr none (.init surah ayah :: rest) =
        (none, [.wsError e])) := by
  constructor
  · intro db surah ayah h
    unfold get_ayah_words
    rw [h]
  · intro Wt lookup pp tr surah ayah e rest h
    simp [wsLoop, initSession, h]

/-- Witness for C9: an empty database rejects surah 3 ayah 7, and a failing
lookup leaves the loop with no session and only the error payload. -/
theorem c9_ayah_not_found_witness :
    (get_ayah_words emptyDB 3 7 = .error (ayahNotFoundMsg 3 7)) ∧
    (wsLoop failLookup okPcm okTranscribe none [.init 3 7] =
      (none, [.wsError ("nope".toList)])) :=
  ⟨c9_ayah_not_found.1 emptyDB 3 7 rfl,
    c9_ayah_not_found.2 Unit failLookup okPcm okTranscribe 3 7
      ("nope".toList) [] rfl⟩

/-! ### Claim C10: statistics never divide by zero -/

/-- C10: with an empty result list get_final_stats returns all-zero
statistics through the early guard, never reaching the mean-similarity
division; with a nonempty list the divisor is the positive result count,
so no division by zero can occur for any result-list contents. -/
theorem c10_final_stats_safe (s : Session) :
    (s.results = [] →
      get_final_stats s =
        { total_words := 0, correct_words := 0, overall_accuracy := 0,
          results := none }) ∧
    (s.results ≠ [] →
      0 < s.results.length ∧
      get_final_stats s =
        { total_words := s.results.length
          correct_words := (s.results.filter
            (fun r => r.status = "correct".toList)).length
          overall_accuracy := round2
            ((s.results.map (fun r => r.similarity)).sum / s.results.length)
          results := some s.results }) := by
  constructor
  · intro h
    unfold get_final_stats
    rw [if_pos h]
  · intro h
    refine ⟨List.length_pos.mpr h, ?_⟩
    unfold get_final_stats
    rw [if_neg h]

/-- Witness for C10: the empty-results session yields the all-zero record
and a one-result session has a positive divisor. -/
theorem c10_final_stats_safe_witness :
    (get_final_stats emptySession =
      { total_words := 0, correct_words := 0, overall_accuracy := 0,
        results := none }) ∧
    (0 < oneResultSession.results.length ∧
      get_final_stats oneResultSession =
        { total_words := oneResultSession.results.length
          correct_words := (oneResultSession.results.filter
            (fun r => r.status = "correct".toList)).length
          overall_accuracy := round2
            ((oneResultSession.results.map (fun r => r.similarity)).sum /
              oneResultSession.results.length)
          results := some oneResultSession.results }) :=
  ⟨(c10_final_stats_safe emptySession).1 rfl,
    (c10_final_stats_safe oneResultSession).2 (List.cons_ne_nil _ _)⟩

end Recitation
